import Mathlib

/-!
Verification of the core video-analysis pipeline of the farm-enterprise
repository: the statistical count verifier (`backend/core/count_verifier.py`),
the re-identification engine (`backend/core/reid_engine.py`), the IoU tracker
(`backend/core/detection_engine.py`), cluster-aware NMS
(`backend/core/herd_scale_detector.py`), key-frame selection
(`backend/core/visual_evidence_generator.py`) and the job-finalization path
(`backend/core/herd_scale_processor.py`, `backend/core/master_engine.py`).

Python floats are modelled exactly by `ℚ` (and by `ℝ` where a square root is
taken); machine rounding is not modelled.  Python's stable `sorted` is
modelled by a stable insertion sort, `collections.deque(maxlen=k)` by a list
with capped append, and a Python `dict` by an association list in insertion
order (Python dicts preserve insertion order).
-/

/-- Stable insertion of `x` into `l`: `x` is placed before the first element
`y` with `le x y`.  Together with `stableSort` this models Python's stable
`sorted(..., key=...)`. -/
def insertLe (le : α → α → Bool) (x : α) : List α → List α
  | [] => [x]
  | y :: ys => if le x y then x :: y :: ys else y :: insertLe le x ys

/-- Stable insertion sort, modelling Python's `sorted` with comparator `le`. -/
def stableSort (le : α → α → Bool) : List α → List α
  | [] => []
  | x :: xs => insertLe le x (stableSort le xs)

/-- Keep the first occurrence of every element, in order, skipping elements
already in `seen`: models the `seen`-set deduplication loop in
`select_key_frames`. -/
def dedupFirstAux [DecidableEq α] (seen : List α) : List α → List α
  | [] => []
  | x :: xs => if x ∈ seen then dedupFirstAux seen xs else x :: dedupFirstAux (x :: seen) xs

/-- Keep the first occurrence of every element, in order. -/
def dedupFirst [DecidableEq α] (l : List α) : List α := dedupFirstAux [] l

/-- Append to a `collections.deque(maxlen=cap)`: the leftmost element is
dropped once the length would exceed the cap. -/
def dequeAppend (cap : ℕ) (l : List α) (x : α) : List α :=
  let m := l ++ [x]
  if cap < m.length then m.tail else m

/-- Python `l[-k:]`: the last `k` elements of `l`. -/
def takeLast (k : ℕ) (l : List α) : List α := l.drop (l.length - k)

namespace Evidence

/-- From `HerdScaleDetector._classify_density`. -/
def classifyDensity (count : ℕ) : String :=
  if count < 10 then "sparse"
  else if count < 30 then "moderate"
  else if count < 60 then "dense"
  else if count < 100 then "crowded"
  else "extreme"

/-- The per-frame detection map of `select_key_frames`, abstracted to the
number of detections per frame (the source only ever takes
`len(detections_by_frame[f])`).  Association list in dict insertion order. -/
abbrev FrameCounts := List (ℕ × ℕ)

/-- Python `sorted(detections_by_frame.keys())`. -/
def frameNums (m : FrameCounts) : List ℕ :=
  stableSort (fun a b => decide (a ≤ b)) (m.map (·.1))

/-- Look up the count recorded for frame `f` (frames are dict keys, hence
unique). -/
def countOf (m : FrameCounts) (f : ℕ) : ℕ :=
  ((m.find? (fun p => p.1 = f)).map (·.2)).getD 0

/-- The items of the `counts` dict of `select_key_frames`, in its iteration
order (keys ascending, because `counts` is built over sorted frame numbers). -/
def countsList (m : FrameCounts) : List (ℕ × ℕ) :=
  (frameNums m).map (fun f => (f, countOf m f))

/-- Python `max(items, key=lambda x: x[1])`: the first item attaining the
maximal second component. -/
def firstMaxBySnd (l : List (ℕ × ℕ)) : ℕ × ℕ :=
  match l with
  | [] => (0, 0)
  | p :: rest => rest.foldl (fun best q => if best.2 < q.2 then q else best) p

/-- Python `sorted(counts.items(), key=lambda x: x[1])` (stable, ascending by
count). -/
def sortedByCount (m : FrameCounts) : List (ℕ × ℕ) :=
  stableSort (fun a b => decide (a.2 ≤ b.2)) (countsList m)

/-- Frame number of the peak-count frame. -/
def peakFrame (m : FrameCounts) : ℕ := (firstMaxBySnd (countsList m)).1

/-- Frame number of the median-count frame: `sorted_by_count[len // 2]`. -/
def medianFrame (m : FrameCounts) : ℕ :=
  ((sortedByCount m).getD ((sortedByCount m).length / 2) (0, 0)).1

/-- Frame number of the sparse (low-count) frame: `sorted_by_count[len // 4]`. -/
def sparseFrame (m : FrameCounts) : ℕ :=
  ((sortedByCount m).getD ((sortedByCount m).length / 4) (0, 0)).1

/-- The three temporal sample frames:
`frame_nums[n // 10]`, `frame_nums[n // 2]`, `frame_nums[n * 9 // 10]`. -/
def temporalFrames (m : FrameCounts) : List ℕ :=
  let fns := frameNums m
  [fns.getD (fns.length / 10) 0, fns.getD (fns.length / 2) 0,
   fns.getD (fns.length * 9 / 10) 0]

/-- `VisualEvidenceGenerator.select_key_frames`, lines 66-122.  The sparse
frame is added when there are more than 3 frames
(`len(sorted_by_count) > 3`), the temporal samples when there are more than
10 frames (`len(frame_nums) > 10`); duplicates are removed keeping first
occurrences. -/
def selectKeyFrames (m : FrameCounts) : List ℕ :=
  if (frameNums m).isEmpty then []
  else
    let base := [peakFrame m, medianFrame m]
    let base := if 3 < (sortedByCount m).length then base ++ [sparseFrame m] else base
    let base := if 10 < (frameNums m).length then base ++ temporalFrames m else base
    dedupFirst base

/-- Number of distinct density levels among the frames of the map. -/
def distinctDensityLevels (m : FrameCounts) : ℕ :=
  ((m.map (fun p => classifyDensity p.2)).dedup).length

end Evidence

namespace Finalize

/-- The persisted `processing_status` values.  The database schema
(`backend/database.py`) CHECK-constrains the column to the first four;
`completedWithWarnings` is listed because the claim mentions it. -/
inductive PersistedStatus
  | pending
  | processing
  | completed
  | failed
  | completedWithWarnings
deriving DecidableEq

/-- The `videos` row fields touched by job finalization. -/
structure VideoRow where
  status : PersistedStatus
  progress : ℕ
  metaIsReliable : Option Bool
deriving DecidableEq

/-- `HerdScaleVideoProcessor._save_video_final` (lines 345-354): writes the
metadata (which carries `is_reliable`) and unconditionally sets
`processing_status = 'Completed'`, `progress = 100`. -/
def saveVideoFinal (row : VideoRow) (isReliable : Bool) : VideoRow :=
  { row with status := .completed, progress := 100, metaIsReliable := some isReliable }

/-- `MasterEngine._update_video_status(video_id, "Completed", 100)` as invoked
at `master_engine.py:481` after the herd-scale processor returns. -/
def masterMarkCompleted (row : VideoRow) : VideoRow :=
  { row with status := .completed, progress := 100 }

/-- The `status` field of the dict returned by
`process_video_herd_scale` (line 309): in-memory only, never persisted. -/
def processorResultStatus (isReliable : Bool) : String :=
  if isReliable then "success" else "completed_with_warnings"

/-- End of a herd-scale job whose frame stream ended without an exception:
the processor persists its final row, the master engine then marks the video
Completed; the verifier reliability flag only selects the in-memory result
status. -/
def finalizeJob (row : VideoRow) (isReliable : Bool) : VideoRow × String :=
  (masterMarkCompleted (saveVideoFinal row isReliable), processorResultStatus isReliable)

end Finalize

namespace Nms

/-- A detection of `herd_scale_detector.py` (bbox `[x1, y1, x2, y2]` in
pixels, confidence in `[0, 1]`). -/
structure Det where
  bbox : ℤ × ℤ × ℤ × ℤ
  confidence : ℚ
  classId : ℕ
  frameNumber : ℕ
deriving DecidableEq

/-- `HerdScaleDetector._compute_iou` (lines 206-214). -/
def computeIoU (b1 b2 : ℤ × ℤ × ℤ × ℤ) : ℚ :=
  let xi1 := max b1.1 b2.1
  let yi1 := max b1.2.1 b2.2.1
  let xi2 := min b1.2.2.1 b2.2.2.1
  let yi2 := min b1.2.2.2 b2.2.2.2
  let inter : ℚ := ((max 0 (xi2 - xi1)) * (max 0 (yi2 - yi1)) : ℤ)
  let a1 : ℚ := ((b1.2.2.1 - b1.1) * (b1.2.2.2 - b1.2.1) : ℤ)
  let a2 : ℚ := ((b2.2.2.1 - b2.1) * (b2.2.2.2 - b2.2.1) : ℤ)
  let union := a1 + a2 - inter
  if 0 < union then inter / union else 0

/-- The `while sorted_dets:` loop of `_apply_cluster_nms`: keep the head,
drop every remaining detection whose IoU with it is not `< base_iou`. -/
def nmsLoop (baseIou : ℚ) : List Det → List Det
  | [] => []
  | d :: rest =>
      d :: nmsLoop baseIou (rest.filter (fun x => computeIoU d.bbox x.bbox < baseIou))
termination_by l => l.length
decreasing_by
  exact Nat.lt_succ_of_le (List.length_filter_le _ _)

/-- Python `sorted(detections, key=lambda x: x.confidence, reverse=True)`:
stable, descending by confidence. -/
def sortDesc (dets : List Det) : List Det :=
  stableSort (fun a b => decide (b.confidence ≤ a.confidence)) dets

/-- `HerdScaleDetector._apply_cluster_nms` (lines 139-160). -/
def clusterNms (dets : List Det) (baseIou : ℚ) : List Det :=
  if dets.isEmpty then [] else nmsLoop baseIou (sortDesc dets)

/-- Nested box of area 3 inside a box of area 4: IoU exactly 3/4. -/
def boxA : Det := ⟨(0, 0, 4, 1), 9/10, 0, 1⟩

/-- See `boxA`. -/
def boxB : Det := ⟨(0, 0, 3, 1), 8/10, 0, 1⟩

end Nms

open scoped Classical

namespace ReID

/-- Feature / embedding vectors (`np.ndarray` of floats). -/
abbrev Vec (n : ℕ) := Fin n → ℝ

/-- Dot product, `np.dot`. -/
def dot {n : ℕ} (a b : Vec n) : ℝ := ∑ i, a i * b i

/-- Euclidean norm, `np.linalg.norm`. -/
noncomputable def vnorm {n : ℕ} (a : Vec n) : ℝ := Real.sqrt (dot a a)

/-- The recurring pattern `norm = np.linalg.norm(v); if norm > 0: v = v / norm`
of `reid_engine.py` (and `master_engine.py` line 338-340). -/
noncomputable def normalizePos {n : ℕ} (a : Vec n) : Vec n :=
  if 0 < vnorm a then (vnorm a)⁻¹ • a else a

/-- `np.mean(vs, axis=0)`: componentwise mean of a list of vectors. -/
noncomputable def vecMean {n : ℕ} (vs : List (Vec n)) : Vec n :=
  ((vs.length : ℝ))⁻¹ • vs.foldr (· + ·) 0

/-- `ReIDEngine._cosine_similarity` (lines 472-480). -/
noncomputable def cosineSimilarity {n : ℕ} (a b : Vec n) : ℝ :=
  if vnorm a = 0 ∨ vnorm b = 0 then 0 else dot a b / (vnorm a * vnorm b)

/-- `BiometricFeatures.to_embedding` (lines 39-71): the concatenated feature
channels (given here as the flat list `features`), right-padded with zeros or
truncated to dimension 256 (`fun i => features.getD i 0` on `Fin 256`), then
L2-normalized when the norm is positive. -/
noncomputable def toEmbedding (features : List ℝ) : Vec 256 :=
  normalizePos (fun i => features.getD i 0)

/-- `GoatIdentity` of `reid_engine.py` (timestamps modelled as `ℕ`). -/
structure GoatIdentity (n : ℕ) where
  identityId : ℕ
  embedding : Vec n
  confidence : ℝ
  firstSeen : ℕ
  lastSeen : ℕ
  appearanceCount : ℕ
  embeddingHistory : List (Vec n)

/-- `GoatIdentity.update_embedding` (lines 86-99): append to the history
deque (maxlen 50), take the exponential moving average
`(1 - lr) * v + lr * new`, renormalize when the norm is positive, stamp
`last_seen` and bump `appearance_count`. -/
noncomputable def GoatIdentity.updateEmbedding {n : ℕ} (g : GoatIdentity n)
    (newEmb : Vec n) (lr : ℝ) (now : ℕ) : GoatIdentity n :=
  { g with
    embeddingHistory := dequeAppend 50 g.embeddingHistory newEmb,
    embedding := normalizePos ((1 - lr) • g.embedding + lr • newEmb),
    lastSeen := now,
    appearanceCount := g.appearanceCount + 1 }

/-- `GoatIdentity.get_stable_embedding` (lines 101-115). -/
noncomputable def GoatIdentity.getStableEmbedding {n : ℕ} (g : GoatIdentity n) : Vec n :=
  if g.embeddingHistory.isEmpty then g.embedding
  else normalizePos (vecMean (takeLast 10 g.embeddingHistory))

/-- In-memory state of `ReIDEngine`: `identity_cache` and
`pending_identities`, both dicts in insertion order. -/
structure EngineState (n : ℕ) where
  cache : List (GoatIdentity n)
  pending : List (ℕ × List (Vec n))

/-- `self.pending_identities[track_id]`, defaulting to the empty list. -/
def pendingOf {n : ℕ} (p : List (ℕ × List (Vec n))) (tid : ℕ) : List (Vec n) :=
  ((p.find? (fun q => q.1 = tid)).map (·.2)).getD []

/-- Store `v` under key `tid` (overwrite in place, or append a fresh entry,
as a Python dict does). -/
def setPending {n : ℕ} (p : List (ℕ × List (Vec n))) (tid : ℕ) (v : List (Vec n)) :
    List (ℕ × List (Vec n)) :=
  if (p.find? (fun q => q.1 = tid)).isSome then
    p.map (fun q => if q.1 = tid then (tid, v) else q)
  else p ++ [(tid, v)]

/-- The pending list for this track after appending the new embedding
(`identify` step 1). -/
def pendingAfter {n : ℕ} (st : EngineState n) (tid : ℕ) (emb : Vec n) : List (Vec n) :=
  pendingOf st.pending tid ++ [emb]

/-- The aggregated embedding `identify` matches against: mean of the track's
pending embeddings, renormalized when the norm is positive (lines 420-425). -/
noncomputable def aggEmbedding {n : ℕ} (st : EngineState n) (tid : ℕ) (emb : Vec n) : Vec n :=
  normalizePos (vecMean (pendingAfter st tid emb))

/-- `ReIDEngine._find_best_match` (lines 446-470): start from
`(None, -1.0)`, scan the cache in insertion order, replace the best on a
strictly greater cosine similarity against the stable embedding. -/
noncomputable def findBestMatch {n : ℕ} (cache : List (GoatIdentity n)) (emb : Vec n) :
    Option ℕ × ℝ :=
  if cache.isEmpty then (none, 0)
  else
    cache.foldl
      (fun best g =>
        if best.2 < cosineSimilarity emb g.getStableEmbedding then
          (some g.identityId, cosineSimilarity emb g.getStableEmbedding)
        else best)
      (none, -1)

/-- The decision strings of `identify`. -/
inductive Decision
  | strongMatch
  | weakMatch
  | new
  | pending
deriving DecidableEq

/-- `ReIDEngine.STRONG_MATCH_THRESHOLD`. -/
noncomputable def strongMatchThreshold : ℝ := 85/100

/-- `ReIDEngine.WEAK_MATCH_THRESHOLD`. -/
noncomputable def weakMatchThreshold : ℝ := 70/100

/-- `ReIDEngine.NEW_IDENTITY_THRESHOLD`. -/
noncomputable def newIdentityThreshold : ℝ := 60/100

/-- Return value and post-state of `ReIDEngine.identify`. -/
structure IdentifyResult (n : ℕ) where
  goatId : Option ℕ
  similarity : ℝ
  decision : Decision
  state : EngineState n

/-- `self.identity_cache[gid].update_embedding(emb, lr)`: update the single
cache entry with that identity id. -/
noncomputable def updateCacheAt {n : ℕ} (cache : List (GoatIdentity n)) (gid : ℕ)
    (emb : Vec n) (lr : ℝ) (now : ℕ) : List (GoatIdentity n) :=
  cache.map (fun g => if g.identityId = gid then g.updateEmbedding emb lr now else g)

/-- `ReIDEngine.identify` (lines 389-444).  The freshly extracted embedding
is appended to the track accumulator before the `len < 1` check; on a match
the matched cache entry is EMA-updated (α = 0.10 strong, 0.05 weak); the
`NEW` branch leaves the cache untouched.  `best.1.getD 0` stands for the
dict access `identity_cache[best_match_id]`, which the match branches only
reach with a present id. -/
noncomputable def identify {n : ℕ} (st : EngineState n) (tid : ℕ) (emb : Vec n)
    (now : ℕ) : IdentifyResult n :=
  let newPending := pendingAfter st tid emb
  let st1 : EngineState n := ⟨st.cache, setPending st.pending tid newPending⟩
  if newPending.length < 1 then ⟨none, 0, .pending, st1⟩
  else
    let agg := aggEmbedding st tid emb
    let best := findBestMatch st.cache agg
    if strongMatchThreshold ≤ best.2 then
      ⟨best.1, best.2, .strongMatch,
        ⟨updateCacheAt st.cache (best.1.getD 0) agg (1/10) now, st1.pending⟩⟩
    else if weakMatchThreshold ≤ best.2 then
      ⟨best.1, best.2, .weakMatch,
        ⟨updateCacheAt st.cache (best.1.getD 0) agg (1/20) now, st1.pending⟩⟩
    else ⟨none, best.2, .new, st1⟩

/-- The database rows the re-id flow can write (`biometric_registry`,
`goats.last_seen`, sighting `events`). -/
structure BioDB (n : ℕ) where
  biometricRegistry : List (ℕ × Vec n)
  goatLastSeen : List (ℕ × ℕ)
  events : List (ℕ × ℕ)

/-- `ReIDEngine.save_identity` (lines 497-515): `INSERT OR REPLACE` of the
identity embedding into `biometric_registry`. -/
def saveIdentity {n : ℕ} (db : BioDB n) (g : GoatIdentity n) : BioDB n :=
  { db with biometricRegistry :=
      if (db.biometricRegistry.find? (fun r => r.1 = g.identityId)).isSome then
        db.biometricRegistry.map fun r =>
          if r.1 = g.identityId then (g.identityId, g.embedding) else r
      else db.biometricRegistry ++ [(g.identityId, g.embedding)] }

/-- `MasterEngine._register_new_goat` (lines 613-664): inserts the goat, its
`biometric_registry` row, and a sighting event. -/
def registerNewGoatDb {n : ℕ} (db : BioDB n) (gid : ℕ) (emb : Vec n)
    (videoId now : ℕ) : BioDB n :=
  { db with biometricRegistry := db.biometricRegistry ++ [(gid, emb)],
            goatLastSeen := db.goatLastSeen ++ [(gid, now)],
            events := db.events ++ [(gid, videoId)] }

/-- `MasterEngine._update_goat_sighting` (lines 666-700): the only database
write on the match path — it touches `goats.last_seen` and `events`, never
`biometric_registry`. -/
def updateGoatSighting {n : ℕ} (db : BioDB n) (gid : ℕ) (videoId now : ℕ) : BioDB n :=
  { db with
    goatLastSeen := db.goatLastSeen.map (fun r => if r.1 = gid then (gid, now) else r),
    events := db.events ++ [(gid, videoId)] }

/-- `ReIDEngine.register_new_identity` (lines 482-495). -/
def registerNewIdentity {n : ℕ} (st : EngineState n) (emb : Vec n) (gid : ℕ)
    (now : ℕ) : EngineState n :=
  { st with cache := st.cache ++ [⟨gid, emb, 1, now, now, 0, []⟩] }

/-- Stored unit vector for the concrete re-id scenarios. -/
noncomputable def storedUnit : Vec 2 := ![1, 0]

/-- Observation with cosine similarity 24/25 = 0.96 to `storedUnit`
(7-24-25 Pythagorean triple). -/
noncomputable def obsEmb : Vec 2 := ![24, 7]

/-- Vector with cosine similarity 2499/2501 ≈ 0.9992 to `storedUnit`
(within 0.001 of 1; from the 100-2499-2501 Pythagorean triple). -/
noncomputable def tieVec : Vec 2 := ![2499, 100]

/-- Cached identity 1: embedding `storedUnit`, `last_seen` stamp 3. -/
noncomputable def identA : GoatIdentity 2 := ⟨1, storedUnit, 1, 0, 3, 0, []⟩

/-- Cached identity 2: embedding `tieVec`, `last_seen` stamp 5 (more recent
than `identA`). -/
noncomputable def identB : GoatIdentity 2 := ⟨2, tieVec, 1, 0, 5, 0, []⟩

end ReID

namespace Tracker

/-- A tracker-input detection (`detection_engine.Detection`). -/
structure TrkDetection where
  bbox : ℤ × ℤ × ℤ × ℤ
  confidence : ℚ
  classId : ℕ
  frameNumber : ℕ
  timestamp : ℚ
deriving DecidableEq

/-- `detection_engine.Track`.  The histories are deques with maxlen 30. -/
structure Track where
  trackId : ℕ
  detections : List TrkDetection
  lastSeenFrame : ℕ
  confidenceHistory : List ℚ
  bboxHistory : List (ℤ × ℤ × ℤ × ℤ)
  isActive : Bool
deriving DecidableEq

/-- `Track.__init__` (lines 45-53). -/
def Track.init (tid : ℕ) (d : TrkDetection) : Track :=
  ⟨tid, [d], d.frameNumber, [d.confidence], [d.bbox], true⟩

/-- `Track.update` (lines 55-60). -/
def Track.updateDet (t : Track) (d : TrkDetection) : Track :=
  { t with
    detections := t.detections ++ [d],
    lastSeenFrame := d.frameNumber,
    confidenceHistory := dequeAppend 30 t.confidenceHistory d.confidence,
    bboxHistory := dequeAppend 30 t.bboxHistory d.bbox }

/-- `SimpleTracker._compute_iou` (lines 171-195), with its early return when
the boxes do not overlap and its `union == 0` guard. -/
def trkIoU (b1 b2 : ℤ × ℤ × ℤ × ℤ) : ℚ :=
  let x1i := max b1.1 b2.1
  let y1i := max b1.2.1 b2.2.1
  let x2i := min b1.2.2.1 b2.2.2.1
  let y2i := min b1.2.2.2 b2.2.2.2
  if x2i < x1i ∨ y2i < y1i then 0
  else
    let inter : ℚ := ((x2i - x1i) * (y2i - y1i) : ℤ)
    let a1 : ℚ := ((b1.2.2.1 - b1.1) * (b1.2.2.2 - b1.2.1) : ℤ)
    let a2 : ℚ := ((b2.2.2.1 - b2.1) * (b2.2.2.2 - b2.2.1) : ℤ)
    let union := a1 + a2 - inter
    if union = 0 then 0 else inter / union

/-- State of a `SimpleTracker` (`self.tracks` is a dict in insertion order,
which coincides with ascending track id; tracks are never deleted). -/
structure TrackerState where
  maxAge : ℕ
  minHits : ℕ
  iouThreshold : ℚ
  tracks : List Track
  nextTrackId : ℕ
  frameCount : ℕ
deriving DecidableEq

/-- `SimpleTracker.__init__` (defaults `max_age=30, min_hits=3,
iou_threshold=0.3`; the herd-scale processor passes `max_age=60`). -/
def initTracker (maxAge minHits : ℕ) (thr : ℚ) : TrackerState :=
  ⟨maxAge, minHits, thr, [], 1, 0⟩

/-- The IoU matrix between the last-known box of each active track and each
current detection (lines 137-142). -/
def iouMatrix (active : List Track) (dets : List TrkDetection) : List (List ℚ) :=
  active.map fun t => dets.map fun d => trkIoU (t.bboxHistory.getLastD (0, 0, 0, 0)) d.bbox

/-- `np.argmax` over the matrix in row-major order: the first entry attaining
the maximum (strict improvement while scanning). -/
def argmaxMatrix (m : List (List ℚ)) : Option (ℕ × ℕ × ℚ) :=
  m.enum.foldl
    (fun best r =>
      r.2.enum.foldl
        (fun best c =>
          match best with
          | none => some (r.1, c.1, c.2)
          | some b => if b.2.2 < c.2 then some (r.1, c.1, c.2) else best)
        best)
    none

/-- Set row `ri` and column `ci` to `-1` (lines 164-166). -/
def eraseRowCol (m : List (List ℚ)) (ri ci : ℕ) : List (List ℚ) :=
  m.enum.map fun r => r.2.enum.map fun c => if r.1 = ri ∨ c.1 = ci then -1 else c.2

/-- The greedy matching loop (lines 148-166): at most `min(#tracks, #dets)`
rounds; stop when the matrix is empty or the best IoU is below the
threshold; otherwise record the pair, remove the detection index from the
unmatched list and blank its row and column. -/
def greedyLoop (thr : ℚ) :
    ℕ → List (List ℚ) → List (ℕ × ℕ) → List ℕ → List (ℕ × ℕ) × List ℕ
  | 0, _, matched, unmatched => (matched, unmatched)
  | fuel + 1, m, matched, unmatched =>
      if m.isEmpty then (matched, unmatched)
      else
        match argmaxMatrix m with
        | none => (matched, unmatched)
        | some (ri, ci, v) =>
            if v < thr then (matched, unmatched)
            else greedyLoop thr fuel (eraseRowCol m ri ci)
              (matched ++ [(ri, ci)]) (unmatched.erase ci)

/-- `SimpleTracker._associate_detections` (lines 126-169).  Index accesses
`active_tracks[track_idx]` / `detections[det_idx]` are rendered with `get?`
plus `filterMap`; the greedy loop only produces in-range indices. -/
def associate (tracks : List Track) (thr : ℚ) (dets : List TrkDetection) :
    List (ℕ × TrkDetection) × List TrkDetection :=
  if tracks.isEmpty then ([], dets)
  else
    let active := tracks.filter (·.isActive)
    if active.isEmpty then ([], dets)
    else
      let r := greedyLoop thr (min active.length dets.length)
        (iouMatrix active dets) [] (List.range dets.length)
      let matched := r.1.filterMap fun p =>
        match active.get? p.1, dets.get? p.2 with
        | some t, some d => some (t.trackId, d)
        | _, _ => none
      (matched, r.2.filterMap fun i => dets.get? i)

/-- `SimpleTracker._age_tracks` (lines 197-201). -/
def ageTracks (s : TrackerState) : TrackerState :=
  { s with tracks := s.tracks.map fun t =>
      if s.maxAge < s.frameCount - t.lastSeenFrame then { t with isActive := false } else t }

/-- `SimpleTracker._get_active_tracks` (lines 203-208): only active tracks
with at least `min_hits` accumulated detections are returned. -/
def getActiveTracks (s : TrackerState) : List Track :=
  s.tracks.filter fun t => t.isActive && decide (s.minHits ≤ t.detections.length)

/-- Apply `self.tracks[track_id].update(detection)` for every matched pair
(lines 112-113). -/
def updateMatched (tracks : List Track) (matched : List (ℕ × TrkDetection)) : List Track :=
  matched.foldl
    (fun ts p => ts.map fun t => if t.trackId = p.1 then t.updateDet p.2 else t)
    tracks

/-- Create a new tentative track for every unmatched detection
(lines 116-119). -/
def addNewTracks (s : TrackerState) (unmatched : List TrkDetection) : TrackerState :=
  unmatched.foldl
    (fun s d =>
      { s with tracks := s.tracks ++ [Track.init s.nextTrackId d],
               nextTrackId := s.nextTrackId + 1 })
    s

/-- `SimpleTracker.update` (lines 96-124). -/
def updateTracker (s : TrackerState) (dets : List TrkDetection) :
    TrackerState × List Track :=
  let s1 := { s with frameCount := s.frameCount + 1 }
  if dets.isEmpty then
    let s2 := ageTracks s1
    (s2, getActiveTracks s2)
  else
    let r := associate s1.tracks s1.iouThreshold dets
    let s2 := { s1 with tracks := updateMatched s1.tracks r.1 }
    let s3 := addNewTracks s2 r.2
    let s4 := ageTracks s3
    (s4, getActiveTracks s4)

/-- Feed a per-frame stream of detection lists through the tracker,
collecting the returned track lists. -/
def run (s : TrackerState) : List (List TrkDetection) → TrackerState × List (List Track)
  | [] => (s, [])
  | ds :: rest =>
      let r1 := updateTracker s ds
      let r2 := run r1.1 rest
      (r2.1, r1.2 :: r2.2)

end Tracker

namespace Verifier

/-- `np.mean` over a list of rationals (our exact model of Python floats). -/
def mean (l : List ℚ) : ℚ := l.sum / l.length

/-- The counts list as rationals. -/
def countsQ (counts : List ℕ) : List ℚ := counts.map fun c => (c : ℚ)

/-- Population variance (`np.std` squared, `ddof=0`). -/
def variance (l : List ℚ) : ℚ := mean (l.map fun x => (x - mean l) ^ 2)

/-- `np.std`. -/
noncomputable def stdDev (l : List ℚ) : ℝ := Real.sqrt ((variance l : ℚ) : ℝ)

/-- `cv = std_count / mean_count if mean_count > 0 else 1.0`
(`verify_counts` line 97). -/
noncomputable def cv (counts : List ℕ) : ℝ :=
  if 0 < mean (countsQ counts) then
    stdDev (countsQ counts) / ((mean (countsQ counts) : ℚ) : ℝ)
  else 1

/-- The sorted counts (`np.percentile` sorts its input). -/
def sortedCounts (counts : List ℕ) : List ℕ :=
  stableSort (fun a b => decide (a ≤ b)) counts

/-- Linear interpolation of the order statistics of `s` at position `pos`:
floor index, fractional part, upper index clipped to `n - 1`. -/
def interpAt (s : List ℕ) (pos : ℚ) : ℚ :=
  let i : ℕ := (⌊pos⌋).toNat
  let lo : ℚ := (s.getD i 0 : ℕ)
  let hi : ℚ := (s.getD (min (i + 1) (s.length - 1)) 0 : ℕ)
  lo + (pos - (i : ℚ)) * (hi - lo)

/-- `np.percentile(counts, q)` with the default linear-interpolation method:
position `q * (n - 1) / 100`, interpolate between the two neighbouring order
statistics (upper index clipped to `n - 1`).  `np.median` coincides with the
50th percentile under this method. -/
def percentile (counts : List ℕ) (q : ℚ) : ℚ :=
  let s := sortedCounts counts
  if s.length = 0 then 0
  else interpAt s (q * ((s.length : ℚ) - 1) / 100)

/-- `int(np.max(counts))` (counts are natural numbers). -/
def peak (counts : List ℕ) : ℕ := counts.foldl max 0

/-- Python `int()`: truncation toward zero. -/
def pyInt (x : ℚ) : ℤ := if 0 ≤ x then ⌊x⌋ else ⌈x⌉

/-- The frame-to-frame relative changes of `_calculate_temporal_stability`
(lines 212-217): `abs(c[i] - c[i-1]) / c[i-1]` for every adjacent pair with
positive predecessor. -/
def adjacentChanges (counts : List ℕ) : List ℚ :=
  (counts.zip counts.tail).filterMap fun p =>
    if 0 < p.1 then some (|(p.2 : ℚ) - (p.1 : ℚ)| / (p.1 : ℚ)) else none

/-- `CountVerifier._calculate_temporal_stability` (lines 204-226). -/
def temporalStability (counts : List ℕ) : ℚ :=
  if counts.length < 2 then 0
  else
    let changes := adjacentChanges counts
    if changes.isEmpty then 0
    else max 0 (100 * (1 - min (mean changes) 1))

/-- `CountVerifier._detect_outliers` (lines 228-241), IQR fences. -/
def outliers (counts : List ℕ) : List ℕ :=
  if counts.length < 4 then []
  else
    let q1 := percentile counts 25
    let q3 := percentile counts 75
    let iqr := q3 - q1
    counts.filter fun c =>
      decide ((c : ℚ) < q1 - 3/2 * iqr) || decide (q3 + 3/2 * iqr < (c : ℚ))

/-- `len(outliers) / len(counts) if counts else 0` (line 136). -/
def outlierFrac (counts : List ℕ) : ℚ :=
  if counts.isEmpty then 0 else ((outliers counts).length : ℚ) / (counts.length : ℚ)

/-- `CountVerifier._detect_sudden_jumps` (lines 243-257): adjacent pairs (the
dict keys of this model are already in ascending frame order) with more than
50% relative change. -/
def suddenJumps (counts : List ℕ) : ℕ :=
  ((counts.zip counts.tail).filter fun p =>
    decide (0 < p.1) && decide ((1 : ℚ)/2 < |(p.2 : ℚ) - (p.1 : ℚ)| / (p.1 : ℚ))).length

/-- The CV sub-score of `_calculate_confidence` (line 274). -/
noncomputable def cvScore (counts : List ℕ) : ℝ :=
  max 0 (100 * (1 - min (cv counts / (1/2)) 1))

/-- The inverted-uncertainty sub-score (line 280). -/
def uncertaintyScore (us : List ℚ) : ℚ := 100 - mean us

/-- The outlier sub-score (line 283). -/
def outlierScore (counts : List ℕ) : ℚ :=
  max 0 (100 * (1 - min (outlierFrac counts / (3/10)) 1))

/-- `CountVerifier._calculate_confidence` (lines 259-293): weighted average
of the four sub-scores, clamped to [0, 100]. -/
noncomputable def confidence (counts : List ℕ) (us : List ℚ) : ℝ :=
  min 100 (max 0
    (cvScore counts * (30/100) +
     ((temporalStability counts : ℚ) : ℝ) * (30/100) +
     ((uncertaintyScore us : ℚ) : ℝ) * (25/100) +
     ((outlierScore counts : ℚ) : ℝ) * (15/100)))

/-- Python `round(x, 1)` (banker's rounding; it differs from `round` here
only on exact midpoints, which does not affect any [0, 100] bound). -/
noncomputable def roundTo1 (x : ℝ) : ℝ := ((round (x * 10) : ℤ) : ℝ) / 10

/-- `likely_count` of `verify_counts` step 8: the 95th percentile when
`cv < 0.05`, the 90th when `cv < 0.15`, otherwise the median. -/
noncomputable def likelyCount (counts : List ℕ) : ℤ :=
  if cv counts < 5/100 then pyInt (percentile counts 95)
  else if cv counts < 15/100 then pyInt (percentile counts 90)
  else pyInt (percentile counts 50)

/-- `min_count` of `verify_counts` step 8. -/
noncomputable def minCount (counts : List ℕ) : ℤ :=
  if cv counts < 5/100 then pyInt ((pyInt (percentile counts 95) : ℚ) * (95/100))
  else if cv counts < 15/100 then pyInt ((pyInt (percentile counts 90) : ℚ) * (90/100))
  else pyInt (percentile counts 25)

/-- `max_count` of `verify_counts` step 8. -/
noncomputable def maxCount (counts : List ℕ) : ℤ :=
  if cv counts < 5/100 then pyInt ((pyInt (percentile counts 95) : ℚ) * (105/100))
  else if cv counts < 15/100 then pyInt (((peak counts : ℕ) : ℚ) * (105/100))
  else (peak counts : ℤ)

/-- The uncertainty levels of the result. -/
inductive UncertaintyLevel
  | low
  | medium
  | high
  | extreme
deriving DecidableEq

/-- `verify_counts` step 9 (lines 157-167), over average uncertainty and the
unrounded confidence score. -/
noncomputable def uncertaintyLevel (counts : List ℕ) (us : List ℚ) : UncertaintyLevel :=
  if 60 < mean us ∨ confidence counts us < 40 then .extreme
  else if 40 < mean us ∨ confidence counts us < 60 then .high
  else if 20 < mean us ∨ confidence counts us < 75 then .medium
  else .low

/-- `self.min_confidence_threshold` (default 60.0; the herd-scale processor
passes 60.0 as well). -/
noncomputable def minConfidenceThreshold : ℝ := 60

/-- Tags standing for the warning / failure-reason / recommendation strings
of `count_verifier.py` (the interpolated message texts are abstracted). -/
inductive VNote
  | temporalInstability
  | highOutlierRate
  | extremeCount
  | veryLowCount
  | suddenChanges
  | highVariance
  | extremeOcclusion
  | highOcclusion
  | belowThreshold
  | noDetections
deriving DecidableEq

/-- `CountVerificationResult`, fields in the dataclass order (the
`recommendation` string is abstracted to its presence). -/
structure VResult where
  minCount : ℤ
  maxCount : ℤ
  likelyCount : ℤ
  confidenceScore : ℝ
  uncertaintyLevel : UncertaintyLevel
  isReliable : Prop
  warnings : List VNote
  failureReasons : List VNote
  temporalStability : ℝ
  recommendationIssued : Prop

/-- `CountVerifier._create_failure_result` (lines 326-339). -/
noncomputable def createFailureResult (reason : VNote) : VResult :=
  ⟨0, 0, 0, 0, .extreme, False, [], [reason], 0, True⟩

/-- The warnings accumulated by `verify_counts` (steps 3, 4, 6 and the
high-variance warning of step 8), in order of appearance. -/
noncomputable def warningsOf (counts : List ℕ) : List VNote :=
  (if temporalStability counts < 50 then [VNote.temporalInstability] else []) ++
  (if (counts.length : ℚ) * (1/5) < ((outliers counts).length : ℚ) then
    [VNote.highOutlierRate] else []) ++
  (if 500 < peak counts then [VNote.extremeCount] else []) ++
  (if peak counts < 5 ∧ 0 < mean (countsQ counts) then [VNote.veryLowCount] else []) ++
  (if (counts.length : ℚ) * (1/10) < (suddenJumps counts : ℚ) then
    [VNote.suddenChanges] else []) ++
  (if ¬ cv counts < 5/100 ∧ ¬ cv counts < 15/100 then [VNote.highVariance] else [])

/-- The failure reasons accumulated by `verify_counts` (steps 9 and 10). -/
noncomputable def failureReasonsOf (counts : List ℕ) (us : List ℚ) : List VNote :=
  (match uncertaintyLevel counts us with
    | .extreme => [VNote.extremeOcclusion]
    | .high => [VNote.highOcclusion]
    | _ => []) ++
  (if ¬ minConfidenceThreshold ≤ confidence counts us then [VNote.belowThreshold] else [])

/-- `CountVerifier.verify_counts` (lines 69-202), over the counts and
uncertainties in frame order (the two dict values of the call site). -/
noncomputable def verifyCounts (counts : List ℕ) (us : List ℚ) : VResult :=
  if counts.isEmpty then createFailureResult .noDetections
  else
    ⟨minCount counts, maxCount counts, likelyCount counts,
     roundTo1 (confidence counts us),
     uncertaintyLevel counts us,
     minConfidenceThreshold ≤ confidence counts us,
     warningsOf counts,
     failureReasonsOf counts us,
     roundTo1 ((temporalStability counts : ℚ) : ℝ),
     ¬ minConfidenceThreshold ≤ confidence counts us⟩

end Verifier

/-- C9, counterexample.  Map with frames 1, 2, 3 carrying 5, 15 and 45
detections: three distinct density levels (sparse, moderate, dense), yet the
selected key frames are exactly the peak frame 3 and the median frame 2 — the
sparse-count frame 1 is not included, because the code's condition is
`len(sorted_by_count) > 3` (more than three frames), not a count of distinct
density levels. -/
theorem selectKeyFrames_three_levels_no_sparse :
    Evidence.selectKeyFrames [(1, 5), (2, 15), (3, 45)] = [3, 2] ∧
    Evidence.distinctDensityLevels [(1, 5), (2, 15), (3, 45)] = 3 ∧
    Evidence.sparseFrame [(1, 5), (2, 15), (3, 45)] = 1 ∧
    (1 : ℕ) ∉ Evidence.selectKeyFrames [(1, 5), (2, 15), (3, 45)] := by
  decide

/-- C6, counterexample.  A job whose verifier result is unreliable
(`is_reliable = false`) is persisted with status Completed, not
CompletedWithWarnings: `_save_video_final` and the master engine both write
'Completed' unconditionally. -/
theorem finalizeJob_unreliable_persists_completed :
    (Finalize.finalizeJob ⟨.processing, 50, none⟩ false).1.status =
      Finalize.PersistedStatus.completed ∧
    Finalize.PersistedStatus.completed ≠ Finalize.PersistedStatus.completedWithWarnings := by
  decide

/-- C6, amended.  When the frame stream of a job ends without an exception,
the persisted job status is always Completed — whether or not the verifier
result is reliable; reliability only selects the in-memory result status
('success' versus 'completed_with_warnings') and is recorded in the job
metadata.  In particular an unreliable verifier result never marks the job
Failed. -/
theorem finalizeJob_spec (row : Finalize.VideoRow) (isReliable : Bool) :
    (Finalize.finalizeJob row isReliable).1.status = Finalize.PersistedStatus.completed ∧
    (Finalize.finalizeJob row isReliable).1.status ≠ Finalize.PersistedStatus.failed ∧
    (Finalize.finalizeJob row isReliable).1.metaIsReliable = some isReliable ∧
    (Finalize.finalizeJob row isReliable).2 =
      (if isReliable then "success" else "completed_with_warnings") := by
  refine ⟨rfl, by simp [Finalize.finalizeJob, Finalize.masterMarkCompleted], rfl, rfl⟩

theorem mem_dedupFirstAux [DecidableEq α] (seen : List α) (l : List α) (a : α) :
    a ∈ dedupFirstAux seen l ↔ a ∈ l ∧ a ∉ seen := by
  induction l generalizing seen with
  | nil => simp [dedupFirstAux]
  | cons x xs ih =>
    by_cases hx : x ∈ seen
    · rw [dedupFirstAux, if_pos hx, ih]
      simp only [List.mem_cons]
      constructor
      · rintro ⟨h1, h2⟩; exact ⟨Or.inr h1, h2⟩
      · rintro ⟨rfl | h1, h2⟩
        · exact absurd hx h2
        · exact ⟨h1, h2⟩
    · rw [dedupFirstAux, if_neg hx]
      simp only [List.mem_cons, ih, List.mem_cons]
      constructor
      · rintro (rfl | ⟨h1, h2⟩)
        · exact ⟨Or.inl rfl, hx⟩
        · exact ⟨Or.inr h1, fun hs => h2 (Or.inr hs)⟩
      · rintro ⟨rfl | h1, h2⟩
        · exact Or.inl rfl
        · by_cases hax : a = x
          · exact Or.inl hax
          · exact Or.inr ⟨h1, fun hs => hs.elim hax h2⟩

theorem mem_dedupFirst [DecidableEq α] (l : List α) (a : α) :
    a ∈ dedupFirst l ↔ a ∈ l := by
  simp [dedupFirst, mem_dedupFirstAux]

theorem nodup_dedupFirstAux [DecidableEq α] (seen : List α) (l : List α) :
    (dedupFirstAux seen l).Nodup := by
  induction l generalizing seen with
  | nil => simp [dedupFirstAux]
  | cons x xs ih =>
    by_cases hx : x ∈ seen
    · rw [dedupFirstAux, if_pos hx]; exact ih seen
    · rw [dedupFirstAux, if_neg hx]
      refine List.nodup_cons.mpr ⟨fun hmem => ?_, ih (x :: seen)⟩
      exact ((mem_dedupFirstAux _ _ _).mp hmem).2 (List.mem_cons_self x seen)

theorem nodup_dedupFirst [DecidableEq α] (l : List α) :
    (dedupFirst l).Nodup := nodup_dedupFirstAux [] l

/-- C9, amended.  For every non-empty per-frame detection map: the selected
key-frame set always contains the peak-count frame and the median-count
frame; it contains the sparse-count frame whenever the map holds more than 3
frames (the code tests the number of frames, not the number of distinct
density levels); it contains the temporal samples at roughly 10%, 50% and
90% of the sampled timeline whenever the map holds more than 10 frames; and
the returned list contains no duplicate frame numbers. -/
theorem selectKeyFrames_spec (m : Evidence.FrameCounts)
    (h : (Evidence.frameNums m).isEmpty = false) :
    Evidence.peakFrame m ∈ Evidence.selectKeyFrames m ∧
    Evidence.medianFrame m ∈ Evidence.selectKeyFrames m ∧
    (3 < (Evidence.sortedByCount m).length →
      Evidence.sparseFrame m ∈ Evidence.selectKeyFrames m) ∧
    (10 < (Evidence.frameNums m).length →
      ∀ f ∈ Evidence.temporalFrames m, f ∈ Evidence.selectKeyFrames m) ∧
    (Evidence.selectKeyFrames m).Nodup := by
  rw [Evidence.selectKeyFrames, if_neg (by simp [h])]
  refine ⟨?_, ?_, ?_, ?_, ?_⟩
  · rw [mem_dedupFirst]
    split <;> split <;> simp
  · rw [mem_dedupFirst]
    split <;> split <;> simp
  · intro h3
    rw [mem_dedupFirst, if_pos h3]
    split <;> simp
  · intro h10 f hf
    rw [mem_dedupFirst, if_pos h10]
    simp [hf]
  · exact nodup_dedupFirst _

/-- Witness for C9's amended theorem at a concrete 12-frame map. -/
theorem selectKeyFrames_spec_witness :
    Evidence.peakFrame
        [(1, 3), (2, 4), (3, 5), (4, 6), (5, 7), (6, 8), (7, 9), (8, 10),
          (9, 11), (10, 12), (11, 13), (12, 14)] ∈
      Evidence.selectKeyFrames
        [(1, 3), (2, 4), (3, 5), (4, 6), (5, 7), (6, 8), (7, 9), (8, 10),
          (9, 11), (10, 12), (11, 13), (12, 14)] ∧
    Evidence.medianFrame
        [(1, 3), (2, 4), (3, 5), (4, 6), (5, 7), (6, 8), (7, 9), (8, 10),
          (9, 11), (10, 12), (11, 13), (12, 14)] ∈
      Evidence.selectKeyFrames
        [(1, 3), (2, 4), (3, 5), (4, 6), (5, 7), (6, 8), (7, 9), (8, 10),
          (9, 11), (10, 12), (11, 13), (12, 14)] ∧
    (3 < (Evidence.sortedByCount
        [(1, 3), (2, 4), (3, 5), (4, 6), (5, 7), (6, 8), (7, 9), (8, 10),
          (9, 11), (10, 12), (11, 13), (12, 14)]).length →
      Evidence.sparseFrame
          [(1, 3), (2, 4), (3, 5), (4, 6), (5, 7), (6, 8), (7, 9), (8, 10),
            (9, 11), (10, 12), (11, 13), (12, 14)] ∈
        Evidence.selectKeyFrames
          [(1, 3), (2, 4), (3, 5), (4, 6), (5, 7), (6, 8), (7, 9), (8, 10),
            (9, 11), (10, 12), (11, 13), (12, 14)]) ∧
    (10 < (Evidence.frameNums
        [(1, 3), (2, 4), (3, 5), (4, 6), (5, 7), (6, 8), (7, 9), (8, 10),
          (9, 11), (10, 12), (11, 13), (12, 14)]).length →
      ∀ f ∈ Evidence.temporalFrames
          [(1, 3), (2, 4), (3, 5), (4, 6), (5, 7), (6, 8), (7, 9), (8, 10),
            (9, 11), (10, 12), (11, 13), (12, 14)],
        f ∈ Evidence.selectKeyFrames
          [(1, 3), (2, 4), (3, 5), (4, 6), (5, 7), (6, 8), (7, 9), (8, 10),
            (9, 11), (10, 12), (11, 13), (12, 14)]) ∧
    (Evidence.selectKeyFrames
        [(1, 3), (2, 4), (3, 5), (4, 6), (5, 7), (6, 8), (7, 9), (8, 10),
          (9, 11), (10, 12), (11, 13), (12, 14)]).Nodup :=
  selectKeyFrames_spec _ (by decide)

theorem mem_insertLe {le : α → α → Bool} (x : α) (l : List α) (a : α) :
    a ∈ insertLe le x l ↔ a = x ∨ a ∈ l := by
  induction l with
  | nil => simp [insertLe]
  | cons y ys ih =>
    rw [insertLe]
    split
    · simp
    · simp only [List.mem_cons, ih]
      tauto

theorem insertLe_perm {le : α → α → Bool} (x : α) (l : List α) :
    (insertLe le x l).Perm (x :: l) := by
  induction l with
  | nil => simp [insertLe]
  | cons y ys ih =>
    rw [insertLe]
    split
    · exact List.Perm.refl _
    · exact (ih.cons y).trans (List.Perm.swap x y ys)

theorem stableSort_perm {le : α → α → Bool} (l : List α) :
    (stableSort le l).Perm l := by
  induction l with
  | nil => simp [stableSort]
  | cons x xs ih =>
    exact (insertLe_perm x (stableSort le xs)).trans (ih.cons x)

theorem mem_stableSort {le : α → α → Bool} (l : List α) (a : α) :
    a ∈ stableSort le l ↔ a ∈ l := (stableSort_perm l).mem_iff

theorem pairwise_insertLe {le : α → α → Bool}
    (htot : ∀ a b, le a b = true ∨ le b a = true)
    (htrans : ∀ a b c, le a b = true → le b c = true → le a c = true)
    (x : α) (l : List α) (h : l.Pairwise (fun a b => le a b = true)) :
    (insertLe le x l).Pairwise (fun a b => le a b = true) := by
  induction l with
  | nil => simp [insertLe]
  | cons y ys ih =>
    rw [insertLe]
    rcases List.pairwise_cons.mp h with ⟨hy, hys⟩
    split
    · rename_i hxy
      refine List.pairwise_cons.mpr ⟨?_, h⟩
      intro z hz
      rcases List.mem_cons.mp hz with rfl | hz
      · exact hxy
      · exact htrans x y z hxy (hy z hz)
    · rename_i hxy
      refine List.pairwise_cons.mpr ⟨?_, ih hys⟩
      intro z hz
      rcases (mem_insertLe x ys z).mp hz with rfl | hz
      · rcases htot z y with hzy | hyz
        · exact absurd hzy hxy
        · exact hyz
      · exact hy z hz

theorem pairwise_stableSort {le : α → α → Bool}
    (htot : ∀ a b, le a b = true ∨ le b a = true)
    (htrans : ∀ a b c, le a b = true → le b c = true → le a c = true)
    (l : List α) :
    (stableSort le l).Pairwise (fun a b => le a b = true) := by
  induction l with
  | nil => simp [stableSort]
  | cons x xs ih => exact pairwise_insertLe htot htrans x _ ih

theorem nmsLoop_sublist (T : ℚ) (l : List Nms.Det) :
    (Nms.nmsLoop T l).Sublist l := by
  induction l using Nms.nmsLoop.induct T with
  | case1 => simp [Nms.nmsLoop]
  | case2 d rest ih =>
    rw [Nms.nmsLoop]
    exact (ih.trans (List.filter_sublist rest)).cons₂ d

theorem nmsLoop_pairwise (T : ℚ) (l : List Nms.Det) :
    (Nms.nmsLoop T l).Pairwise
      (fun a b => Nms.computeIoU a.bbox b.bbox < T) := by
  induction l using Nms.nmsLoop.induct T with
  | case1 => simp [Nms.nmsLoop]
  | case2 d rest ih =>
    rw [Nms.nmsLoop]
    refine List.pairwise_cons.mpr ⟨?_, ih⟩
    intro b hb
    have := (nmsLoop_sublist T _).mem hb
    exact of_decide_eq_true (List.mem_filter.mp this).2

theorem nmsLoop_suppressed (T : ℚ) (l : List Nms.Det) :
    l.Pairwise (fun a b => b.confidence ≤ a.confidence) →
    ∀ d ∈ l, d ∉ Nms.nmsLoop T l →
      ∃ k ∈ Nms.nmsLoop T l,
        d.confidence ≤ k.confidence ∧ T ≤ Nms.computeIoU k.bbox d.bbox := by
  induction l using Nms.nmsLoop.induct T with
  | case1 => simp
  | case2 x rest ih =>
    intro hs d hd hdn
    rw [Nms.nmsLoop] at hdn ⊢
    rcases List.mem_cons.mp hd with rfl | hd
    · exact absurd (List.mem_cons_self _ _) hdn
    · have hconf : d.confidence ≤ x.confidence := (List.pairwise_cons.mp hs).1 d hd
      by_cases hiou : Nms.computeIoU x.bbox d.bbox < T
      · have hdf : d ∈ rest.filter (fun y => decide (Nms.computeIoU x.bbox y.bbox < T)) :=
          List.mem_filter.mpr ⟨hd, decide_eq_true hiou⟩
        have hdn2 : d ∉ Nms.nmsLoop T
            (rest.filter (fun y => decide (Nms.computeIoU x.bbox y.bbox < T))) :=
          fun h => hdn (List.mem_cons_of_mem _ h)
        obtain ⟨k, hk, hkc, hki⟩ :=
          ih ((List.pairwise_cons.mp hs).2.filter _) d hdf hdn2
        exact ⟨k, List.mem_cons_of_mem _ hk, hkc, hki⟩
      · exact ⟨x, List.mem_cons_self _ _, hconf, le_of_not_lt hiou⟩

theorem sortDesc_pairwise (dets : List Nms.Det) :
    (Nms.sortDesc dets).Pairwise (fun a b => b.confidence ≤ a.confidence) := by
  have h := @pairwise_stableSort Nms.Det
    (fun a b => decide (b.confidence ≤ a.confidence))
    (fun a b => by
      rcases le_total b.confidence a.confidence with h | h
      · exact Or.inl (decide_eq_true h)
      · exact Or.inr (decide_eq_true h))
    (fun a b c hab hbc => decide_eq_true
      (le_trans (of_decide_eq_true hbc) (of_decide_eq_true hab)))
    dets
  exact h.imp of_decide_eq_true

/-- C8, amended.  Cluster-aware NMS processes boxes in descending-confidence
order (stable on ties) and a box is suppressed exactly when its IoU with some
previously kept box of greater-or-equal confidence is at least the threshold
`T_nms = 0.75` — the comparison is `iou < base_iou` to keep, so a box whose
IoU with a kept box equals the threshold is suppressed, not kept.  Stated for
every threshold: the kept boxes form a subsequence of the sorted input, any
two kept boxes have IoU strictly below the threshold, and every suppressed
box has IoU at least the threshold with some kept box of no smaller
confidence. -/
theorem clusterNms_spec (dets : List Nms.Det) (T : ℚ) :
    (∀ d, d ∈ Nms.sortDesc dets ↔ d ∈ dets) ∧
    (Nms.clusterNms dets T).Sublist (Nms.sortDesc dets) ∧
    (Nms.clusterNms dets T).Pairwise
      (fun a b => Nms.computeIoU a.bbox b.bbox < T) ∧
    (∀ d ∈ dets, d ∉ Nms.clusterNms dets T →
      ∃ k ∈ Nms.clusterNms dets T,
        d.confidence ≤ k.confidence ∧ T ≤ Nms.computeIoU k.bbox d.bbox) := by
  refine ⟨fun d => mem_stableSort dets d, ?_, ?_, ?_⟩
  · rw [Nms.clusterNms]
    split
    · simp
    · exact nmsLoop_sublist T _
  · rw [Nms.clusterNms]
    split
    · simp
    · exact nmsLoop_pairwise T _
  · intro d hd hdn
    have hl : dets.isEmpty = false := by
      cases dets with
      | nil => simp at hd
      | cons a l => rfl
    rw [Nms.clusterNms, hl] at hdn ⊢
    simp only [Bool.false_eq_true, if_false] at hdn ⊢
    exact nmsLoop_suppressed T _ (sortDesc_pairwise dets) d
      ((mem_stableSort dets d).mpr hd) hdn

theorem nmsExample_iou :
    Nms.computeIoU Nms.boxA.bbox Nms.boxB.bbox = 3/4 := by
  norm_num [Nms.computeIoU, Nms.boxA, Nms.boxB]

theorem nmsExample_eval :
    Nms.clusterNms [Nms.boxA, Nms.boxB] (3/4) = [Nms.boxA] := by
  rw [Nms.clusterNms]
  norm_num [Nms.sortDesc, stableSort, insertLe, Nms.boxA, Nms.boxB]
  rw [Nms.nmsLoop]
  norm_num [nmsExample_iou, Nms.nmsLoop, Nms.boxA, Nms.boxB, Nms.computeIoU]

/-- C8, counterexample.  Two boxes whose IoU is exactly the threshold 0.75:
the lower-confidence box is suppressed by `_apply_cluster_nms` although its
IoU with the kept box does not exceed 0.75 — the code keeps only boxes with
`iou < base_iou`, so equality already suppresses. -/
theorem clusterNms_at_threshold_counterexample :
    Nms.computeIoU Nms.boxA.bbox Nms.boxB.bbox = 3/4 ∧
    ¬ (3/4 : ℚ) > 3/4 ∧
    Nms.clusterNms [Nms.boxA, Nms.boxB] (3/4) = [Nms.boxA] ∧
    Nms.boxB ∉ Nms.clusterNms [Nms.boxA, Nms.boxB] (3/4) := by
  refine ⟨nmsExample_iou, by norm_num, nmsExample_eval, ?_⟩
  rw [nmsExample_eval]
  intro hmem
  rcases List.mem_singleton.mp hmem with h
  have : Nms.boxB.confidence = Nms.boxA.confidence := by rw [h]
  norm_num [Nms.boxA, Nms.boxB] at this

/-- Witness for C8's amended theorem: on the concrete threshold-equality
input, the suppressed box indeed has IoU at least 0.75 with a kept box of
no smaller confidence. -/
theorem clusterNms_spec_witness :
    ∃ k ∈ Nms.clusterNms [Nms.boxA, Nms.boxB] (3/4),
      Nms.boxB.confidence ≤ k.confidence ∧
      (3/4 : ℚ) ≤ Nms.computeIoU k.bbox Nms.boxB.bbox := by
  refine (clusterNms_spec [Nms.boxA, Nms.boxB] (3/4)).2.2.2 Nms.boxB (by simp) ?_
  rw [nmsExample_eval]
  intro hmem
  rcases List.mem_singleton.mp hmem with h
  have : Nms.boxB.confidence = Nms.boxA.confidence := by rw [h]
  norm_num [Nms.boxA, Nms.boxB] at this

namespace ReID

theorem dot_self_nonneg {n : ℕ} (v : Vec n) : 0 ≤ dot v v :=
  Finset.sum_nonneg fun i _ => mul_self_nonneg (v i)

theorem vnorm_nonneg {n : ℕ} (v : Vec n) : 0 ≤ vnorm v := Real.sqrt_nonneg _

theorem dot_self_eq_zero {n : ℕ} (v : Vec n) : dot v v = 0 ↔ v = 0 := by
  constructor
  · intro h
    funext i
    have := (Finset.sum_eq_zero_iff_of_nonneg
      (fun j _ => mul_self_nonneg (v j))).mp h i (Finset.mem_univ i)
    exact mul_self_eq_zero.mp this
  · rintro rfl
    simp [dot]

theorem vnorm_eq_zero {n : ℕ} (v : Vec n) : vnorm v = 0 ↔ v = 0 := by
  rw [vnorm, Real.sqrt_eq_zero (dot_self_nonneg v), dot_self_eq_zero]

theorem vnorm_smul {n : ℕ} (c : ℝ) (v : Vec n) : vnorm (c • v) = |c| * vnorm v := by
  have hdot : dot (c • v) (c • v) = c ^ 2 * dot v v := by
    simp only [dot, Pi.smul_apply, smul_eq_mul, Finset.mul_sum]
    exact Finset.sum_congr rfl fun i _ => by ring
  rw [vnorm, hdot, Real.sqrt_mul (sq_nonneg c), Real.sqrt_sq_eq_abs, vnorm]

theorem vnorm_normalizePos_of_pos {n : ℕ} (v : Vec n) (h : 0 < vnorm v) :
    vnorm (normalizePos v) = 1 := by
  rw [normalizePos, if_pos h, vnorm_smul, abs_of_pos (inv_pos.mpr h),
    inv_mul_cancel₀ (ne_of_gt h)]

theorem normalizePos_unit_or_zero {n : ℕ} (v : Vec n) :
    vnorm (normalizePos v) = 1 ∨ normalizePos v = 0 := by
  by_cases h : 0 < vnorm v
  · exact Or.inl (vnorm_normalizePos_of_pos v h)
  · right
    have h0 : vnorm v = 0 := le_antisymm (not_lt.mp h) (vnorm_nonneg v)
    rw [normalizePos, if_neg (by rw [h0]; exact lt_irrefl 0)]
    exact (vnorm_eq_zero v).mp h0

end ReID

/-- C2.  Every embedding value the pipeline writes to the persistent
biometric store is L2-normalized or exactly zero (so in particular its norm
lies in [0.999, 1.001] or it is the zero vector): the embedding produced by
`BiometricFeatures.to_embedding` (persisted on registration of a new
identity), the embedding after any `GoatIdentity.update_embedding` EMA drift
update (persisted by `save_identity` whenever it is saved), and the
aggregated embedding registered by the master engine. -/
theorem persisted_embedding_norm :
    (∀ feats : List ℝ,
      (999/1000 ≤ ReID.vnorm (ReID.toEmbedding feats) ∧
        ReID.vnorm (ReID.toEmbedding feats) ≤ 1001/1000) ∨
      ReID.toEmbedding feats = 0) ∧
    (∀ (n : ℕ) (g : ReID.GoatIdentity n) (e : ReID.Vec n) (lr : ℝ) (now : ℕ),
      (999/1000 ≤ ReID.vnorm ((g.updateEmbedding e lr now).embedding) ∧
        ReID.vnorm ((g.updateEmbedding e lr now).embedding) ≤ 1001/1000) ∨
      (g.updateEmbedding e lr now).embedding = 0) ∧
    (∀ (n : ℕ) (vs : List (ReID.Vec n)),
      (999/1000 ≤ ReID.vnorm (ReID.normalizePos (ReID.vecMean vs)) ∧
        ReID.vnorm (ReID.normalizePos (ReID.vecMean vs)) ≤ 1001/1000) ∨
      ReID.normalizePos (ReID.vecMean vs) = 0) := by
  have key : ∀ (n : ℕ) (v : ReID.Vec n),
      (999/1000 ≤ ReID.vnorm (ReID.normalizePos v) ∧
        ReID.vnorm (ReID.normalizePos v) ≤ 1001/1000) ∨
      ReID.normalizePos v = 0 := by
    intro n v
    rcases ReID.normalizePos_unit_or_zero v with h | h
    · exact Or.inl (by rw [h]; norm_num)
    · exact Or.inr h
  refine ⟨fun feats => key 256 _, fun n g e lr now => ?_, fun n vs => key n _⟩
  have he : (g.updateEmbedding e lr now).embedding =
      ReID.normalizePos ((1 - lr) • g.embedding + lr • e) := rfl
  rw [he]
  exact key n _

/-- C10.  The Pending branch of `ReIDEngine.identify` is unreachable: the
fresh embedding is appended to the track accumulator before the `len < 1`
check, so the accumulator is never empty and the decision is always one of
StrongMatch, WeakMatch or New. -/
theorem identify_never_pending {n : ℕ} (st : ReID.EngineState n) (tid : ℕ)
    (emb : ReID.Vec n) (now : ℕ) :
    (ReID.identify st tid emb now).decision ≠ ReID.Decision.pending ∧
    ((ReID.identify st tid emb now).decision = ReID.Decision.strongMatch ∨
      (ReID.identify st tid emb now).decision = ReID.Decision.weakMatch ∨
      (ReID.identify st tid emb now).decision = ReID.Decision.new) := by
  have hlen : ¬ (ReID.pendingAfter st tid emb).length < 1 := by
    simp [ReID.pendingAfter]
  rw [ReID.identify]
  simp only [if_neg hlen]
  split_ifs <;> simp

/-- C3.  With the default thresholds (0.85 / 0.70 / 0.60), a best similarity
of at least 0.85 yields StrongMatch, one in [0.70, 0.85) yields WeakMatch,
and any best similarity below 0.70 — in particular the band [0.60, 0.70) —
yields New, with the identity cache left unmodified and no identity
returned. -/
theorem identify_thresholds {n : ℕ} (st : ReID.EngineState n) (tid : ℕ)
    (emb : ReID.Vec n) (now : ℕ) :
    (ReID.strongMatchThreshold ≤ (ReID.findBestMatch st.cache (ReID.aggEmbedding st tid emb)).2 →
      (ReID.identify st tid emb now).decision = ReID.Decision.strongMatch) ∧
    (ReID.weakMatchThreshold ≤ (ReID.findBestMatch st.cache (ReID.aggEmbedding st tid emb)).2 ∧
        (ReID.findBestMatch st.cache (ReID.aggEmbedding st tid emb)).2 < ReID.strongMatchThreshold →
      (ReID.identify st tid emb now).decision = ReID.Decision.weakMatch) ∧
    ((ReID.findBestMatch st.cache (ReID.aggEmbedding st tid emb)).2 < ReID.weakMatchThreshold →
      (ReID.identify st tid emb now).decision = ReID.Decision.new ∧
      (ReID.identify st tid emb now).state.cache = st.cache ∧
      (ReID.identify st tid emb now).goatId = none) ∧
    (ReID.newIdentityThreshold ≤ (ReID.findBestMatch st.cache (ReID.aggEmbedding st tid emb)).2 ∧
        (ReID.findBestMatch st.cache (ReID.aggEmbedding st tid emb)).2 < ReID.weakMatchThreshold →
      (ReID.identify st tid emb now).decision = ReID.Decision.new ∧
      (ReID.identify st tid emb now).state.cache = st.cache ∧
      (ReID.identify st tid emb now).goatId = none) := by
  have hlen : ¬ (ReID.pendingAfter st tid emb).length < 1 := by
    simp [ReID.pendingAfter]
  have hws : ReID.weakMatchThreshold < ReID.strongMatchThreshold := by
    norm_num [ReID.weakMatchThreshold, ReID.strongMatchThreshold]
  refine ⟨fun h => ?_, fun h => ?_, fun h => ?_, fun h => ?_⟩
  · rw [ReID.identify]
    simp only [if_neg hlen]
    rw [if_pos h]
  · rw [ReID.identify]
    simp only [if_neg hlen]
    rw [if_neg (not_le.mpr h.2), if_pos h.1]
  · rw [ReID.identify]
    simp only [if_neg hlen]
    rw [if_neg (not_le.mpr (h.trans hws)), if_neg (not_le.mpr h)]
    exact ⟨rfl, rfl, rfl⟩
  · rw [ReID.identify]
    simp only [if_neg hlen]
    rw [if_neg (not_le.mpr (h.2.trans hws)), if_neg (not_le.mpr h.2)]
    exact ⟨rfl, rfl, rfl⟩

/-- Witness for C3 at the concrete empty cache, where the best similarity is
the sentinel 0 and the decision is New with the cache untouched. -/
theorem identify_thresholds_witness :
    (ReID.identify (⟨[], []⟩ : ReID.EngineState 2) 0 (0 : ReID.Vec 2) 0).decision =
      ReID.Decision.new ∧
    (ReID.identify (⟨[], []⟩ : ReID.EngineState 2) 0 (0 : ReID.Vec 2) 0).state.cache =
      (⟨[], []⟩ : ReID.EngineState 2).cache ∧
    (ReID.identify (⟨[], []⟩ : ReID.EngineState 2) 0 (0 : ReID.Vec 2) 0).goatId = none :=
  (identify_thresholds (⟨[], []⟩ : ReID.EngineState 2) 0 (0 : ReID.Vec 2) 0).2.2.1
    (by norm_num [ReID.findBestMatch, ReID.weakMatchThreshold])

theorem bestFold_snd_mono {n : ℕ} (emb : ReID.Vec n)
    (cache : List (ReID.GoatIdentity n)) (b0 : Option ℕ × ℝ) :
    b0.2 ≤ (cache.foldl
      (fun best g =>
        if best.2 < ReID.cosineSimilarity emb g.getStableEmbedding then
          (some g.identityId, ReID.cosineSimilarity emb g.getStableEmbedding)
        else best) b0).2 := by
  induction cache generalizing b0 with
  | nil => simp
  | cons g rest ih =>
    rw [List.foldl_cons]
    refine le_trans ?_ (ih _)
    split_ifs with h
    · exact le_of_lt h
    · exact le_refl _

theorem bestFold_dominates {n : ℕ} (emb : ReID.Vec n)
    (cache : List (ReID.GoatIdentity n)) (b0 : Option ℕ × ℝ) :
    ∀ g ∈ cache, ReID.cosineSimilarity emb g.getStableEmbedding ≤ (cache.foldl
      (fun best g =>
        if best.2 < ReID.cosineSimilarity emb g.getStableEmbedding then
          (some g.identityId, ReID.cosineSimilarity emb g.getStableEmbedding)
        else best) b0).2 := by
  induction cache generalizing b0 with
  | nil => simp
  | cons h rest ih =>
    intro g hg
    rcases List.mem_cons.mp hg with rfl | hg
    · rw [List.foldl_cons]
      refine le_trans ?_ (bestFold_snd_mono emb rest _)
      split_ifs with hlt
      · exact le_refl _
      · exact not_lt.mp hlt
    · rw [List.foldl_cons]
      exact ih _ g hg

theorem bestFold_attained {n : ℕ} (emb : ReID.Vec n)
    (cache : List (ReID.GoatIdentity n)) (b0 : Option ℕ × ℝ) :
    (cache.foldl
      (fun best g =>
        if best.2 < ReID.cosineSimilarity emb g.getStableEmbedding then
          (some g.identityId, ReID.cosineSimilarity emb g.getStableEmbedding)
        else best) b0) = b0 ∨
    ∃ g ∈ cache, (cache.foldl
      (fun best g =>
        if best.2 < ReID.cosineSimilarity emb g.getStableEmbedding then
          (some g.identityId, ReID.cosineSimilarity emb g.getStableEmbedding)
        else best) b0) =
      (some g.identityId, ReID.cosineSimilarity emb g.getStableEmbedding) := by
  induction cache generalizing b0 with
  | nil => simp
  | cons h rest ih =>
    rw [List.foldl_cons]
    rcases ih (if b0.2 < ReID.cosineSimilarity emb h.getStableEmbedding then
        (some h.identityId, ReID.cosineSimilarity emb h.getStableEmbedding)
      else b0) with heq | ⟨g, hg, heq⟩
    · rw [heq]
      split_ifs with hlt
      · exact Or.inr ⟨h, List.mem_cons_self _ _, rfl⟩
      · exact Or.inl rfl
    · exact Or.inr ⟨g, List.mem_cons_of_mem _ hg, heq⟩

/-- C4, amended.  `_find_best_match` never consults `last_updated`: it scans
the cache in insertion order keeping a strictly greater cosine similarity,
so it returns an identity attaining the maximum similarity (whenever some
similarity beats the `-1` sentinel), regardless of which identity was
updated most recently. -/
theorem findBestMatch_spec {n : ℕ} (cache : List (ReID.GoatIdentity n))
    (emb : ReID.Vec n) (hne : cache ≠ []) :
    (∀ g ∈ cache,
      ReID.cosineSimilarity emb g.getStableEmbedding ≤ (ReID.findBestMatch cache emb).2) ∧
    ((∃ g ∈ cache, (-1 : ℝ) < ReID.cosineSimilarity emb g.getStableEmbedding) →
      ∃ g ∈ cache, ReID.findBestMatch cache emb =
        (some g.identityId, ReID.cosineSimilarity emb g.getStableEmbedding)) := by
  have hie : cache.isEmpty = false := by
    cases cache with
    | nil => exact absurd rfl hne
    | cons a l => rfl
  rw [ReID.findBestMatch, hie]
  simp only [Bool.false_eq_true, if_false]
  refine ⟨fun g hg => bestFold_dominates emb cache _ g hg, ?_⟩
  rintro ⟨g, hg, hgt⟩
  rcases bestFold_attained emb cache (none, -1) with heq | h
  · exfalso
    have := bestFold_dominates emb cache (none, -1) g hg
    rw [heq] at this
    exact absurd (lt_of_lt_of_le hgt this) (lt_irrefl _)
  · exact h

theorem vnorm_storedUnit : ReID.vnorm ReID.storedUnit = 1 := by
  have h : ReID.dot ReID.storedUnit ReID.storedUnit = 1 := by
    simp [ReID.dot, ReID.storedUnit, Fin.sum_univ_two]
  rw [ReID.vnorm, h, Real.sqrt_one]

theorem vnorm_tieVec : ReID.vnorm ReID.tieVec = 2501 := by
  have h : ReID.dot ReID.tieVec ReID.tieVec = 2501 ^ 2 := by
    simp [ReID.dot, ReID.tieVec, Fin.sum_univ_two]
    norm_num
  rw [ReID.vnorm, h, Real.sqrt_sq (by norm_num)]

theorem stable_identA : ReID.identA.getStableEmbedding = ReID.storedUnit := by
  simp [ReID.GoatIdentity.getStableEmbedding, ReID.identA]

theorem stable_identB : ReID.identB.getStableEmbedding = ReID.tieVec := by
  simp [ReID.GoatIdentity.getStableEmbedding, ReID.identB]

theorem sim_storedUnit_identA :
    ReID.cosineSimilarity ReID.storedUnit ReID.identA.getStableEmbedding = 1 := by
  rw [stable_identA, ReID.cosineSimilarity,
    if_neg (by rw [vnorm_storedUnit]; norm_num)]
  have h : ReID.dot ReID.storedUnit ReID.storedUnit = 1 := by
    simp [ReID.dot, ReID.storedUnit, Fin.sum_univ_two]
  rw [h, vnorm_storedUnit]
  norm_num

theorem sim_storedUnit_identB :
    ReID.cosineSimilarity ReID.storedUnit ReID.identB.getStableEmbedding = 2499/2501 := by
  rw [stable_identB, ReID.cosineSimilarity,
    if_neg (by rw [vnorm_storedUnit, vnorm_tieVec]; norm_num)]
  have h : ReID.dot ReID.storedUnit ReID.tieVec = 2499 := by
    simp [ReID.dot, ReID.storedUnit, ReID.tieVec, Fin.sum_univ_two]
  rw [h, vnorm_storedUnit, vnorm_tieVec]
  norm_num

theorem findBestMatch_tie_eval :
    ReID.findBestMatch [ReID.identA, ReID.identB] ReID.storedUnit = (some 1, 1) := by
  rw [ReID.findBestMatch]
  simp only [List.isEmpty_cons, Bool.false_eq_true, if_false,
    List.foldl_cons, List.foldl_nil]
  rw [sim_storedUnit_identA, sim_storedUnit_identB]
  rw [if_pos (by norm_num : ((none, -1) : Option ℕ × ℝ).2 < 1)]
  rw [if_neg (by norm_num : ¬ ((some ReID.identA.identityId, (1:ℝ)) : Option ℕ × ℝ).2 < 2499/2501)]
  rfl

/-- C4, counterexample.  Identity 2 scores 2499/2501 — within 0.001 of the
maximal similarity 1 — and carries the more recent `last_seen` stamp, yet
`_find_best_match` returns identity 1: the tie-break by most recent
`last_updated` does not exist in the code. -/
theorem findBestMatch_recency_counterexample :
    ReID.cosineSimilarity ReID.storedUnit ReID.identA.getStableEmbedding = 1 ∧
    ReID.cosineSimilarity ReID.storedUnit ReID.identB.getStableEmbedding = 2499/2501 ∧
    (1 : ℝ) - 2499/2501 ≤ 1/1000 ∧
    ReID.identA.lastSeen < ReID.identB.lastSeen ∧
    ReID.findBestMatch [ReID.identA, ReID.identB] ReID.storedUnit = (some 1, 1) ∧
    (ReID.findBestMatch [ReID.identA, ReID.identB] ReID.storedUnit).1 ≠ some 2 := by
  refine ⟨sim_storedUnit_identA, sim_storedUnit_identB, by norm_num, ?_, findBestMatch_tie_eval, ?_⟩
  · show (3 : ℕ) < 5
    norm_num
  · rw [findBestMatch_tie_eval]
    simp

/-- Witness for C4's amended theorem at the concrete two-identity cache. -/
theorem findBestMatch_spec_witness :
    ∃ g ∈ [ReID.identA, ReID.identB],
      ReID.findBestMatch [ReID.identA, ReID.identB] ReID.storedUnit =
        (some g.identityId, ReID.cosineSimilarity ReID.storedUnit g.getStableEmbedding) :=
  (findBestMatch_spec [ReID.identA, ReID.identB] ReID.storedUnit
      (List.cons_ne_nil _ _)).2
    ⟨ReID.identA, List.mem_cons_self _ _, by rw [sim_storedUnit_identA]; norm_num⟩

theorem dot_smul_left {n : ℕ} (c : ℝ) (a b : ReID.Vec n) :
    ReID.dot (c • a) b = c * ReID.dot a b := by
  simp only [ReID.dot, Pi.smul_apply, smul_eq_mul, Finset.mul_sum]
  exact Finset.sum_congr rfl fun i _ => by ring

theorem vnorm_pos {n : ℕ} (v : ReID.Vec n) : 0 < ReID.vnorm v ↔ v ≠ 0 := by
  constructor
  · intro h hv
    rw [(ReID.vnorm_eq_zero v).mpr hv] at h
    exact lt_irrefl 0 h
  · intro hv
    rcases lt_or_eq_of_le (ReID.vnorm_nonneg v) with h | h
    · exact h
    · exact absurd ((ReID.vnorm_eq_zero v).mp h.symm) hv

theorem vecMean_singleton {n : ℕ} (v : ReID.Vec n) : ReID.vecMean [v] = v := by
  funext i
  simp [ReID.vecMean]

theorem vnorm_obsEmb : ReID.vnorm ReID.obsEmb = 25 := by
  have h : ReID.dot ReID.obsEmb ReID.obsEmb = 25 ^ 2 := by
    simp [ReID.dot, ReID.obsEmb, Fin.sum_univ_two]
    norm_num
  rw [ReID.vnorm, h, Real.sqrt_sq (by norm_num)]

theorem agg_obs_eval :
    ReID.aggEmbedding (⟨[ReID.identA], []⟩ : ReID.EngineState 2) 7 ReID.obsEmb =
      ReID.normalizePos ReID.obsEmb := by
  rw [ReID.aggEmbedding]
  have h : ReID.pendingAfter (⟨[ReID.identA], []⟩ : ReID.EngineState 2) 7 ReID.obsEmb =
      [ReID.obsEmb] := by
    simp [ReID.pendingAfter, ReID.pendingOf]
  rw [h, vecMean_singleton]

theorem normalizePos_obsEmb :
    ReID.normalizePos ReID.obsEmb = (25 : ℝ)⁻¹ • ReID.obsEmb := by
  rw [ReID.normalizePos, if_pos (by rw [vnorm_obsEmb]; norm_num), vnorm_obsEmb]

theorem sim_aggObs_identA :
    ReID.cosineSimilarity (ReID.normalizePos ReID.obsEmb)
      ReID.identA.getStableEmbedding = 24/25 := by
  rw [stable_identA]
  have hn : ReID.vnorm (ReID.normalizePos ReID.obsEmb) = 1 :=
    ReID.vnorm_normalizePos_of_pos _ (by rw [vnorm_obsEmb]; norm_num)
  have hdot : ReID.dot (ReID.normalizePos ReID.obsEmb) ReID.storedUnit = 24/25 := by
    rw [normalizePos_obsEmb, dot_smul_left]
    have h : ReID.dot ReID.obsEmb ReID.storedUnit = 24 := by
      simp [ReID.dot, ReID.obsEmb, ReID.storedUnit, Fin.sum_univ_two]
    rw [h]
    norm_num
  rw [ReID.cosineSimilarity, if_neg (by rw [hn, vnorm_storedUnit]; norm_num),
    hdot, hn, vnorm_storedUnit]
  norm_num

theorem findBestMatch_obs_eval :
    ReID.findBestMatch [ReID.identA] (ReID.normalizePos ReID.obsEmb) =
      (some 1, 24/25) := by
  rw [ReID.findBestMatch]
  simp only [List.isEmpty_cons, Bool.false_eq_true, if_false,
    List.foldl_cons, List.foldl_nil]
  rw [sim_aggObs_identA]
  rw [if_pos (by norm_num : ((none, -1) : Option ℕ × ℝ).2 < 24/25)]
  rfl

theorem identify_obs_eval :
    (ReID.identify (⟨[ReID.identA], []⟩ : ReID.EngineState 2) 7 ReID.obsEmb 5).decision =
      ReID.Decision.strongMatch ∧
    (ReID.identify (⟨[ReID.identA], []⟩ : ReID.EngineState 2) 7 ReID.obsEmb 5).state.cache =
      [ReID.identA.updateEmbedding (ReID.normalizePos ReID.obsEmb) (1/10) 5] := by
  have hlen : ¬ (ReID.pendingAfter (⟨[ReID.identA], []⟩ : ReID.EngineState 2) 7
      ReID.obsEmb).length < 1 := by
    simp [ReID.pendingAfter]
  rw [ReID.identify]
  simp only [if_neg hlen]
  rw [agg_obs_eval]
  have hb : ReID.findBestMatch (⟨[ReID.identA], []⟩ : ReID.EngineState 2).cache
      (ReID.normalizePos ReID.obsEmb) = (some 1, 24/25) := findBestMatch_obs_eval
  rw [hb, if_pos (by norm_num [ReID.strongMatchThreshold] :
    ReID.strongMatchThreshold ≤ ((some 1, 24/25) : Option ℕ × ℝ).2)]
  constructor
  · rfl
  · simp [ReID.updateCacheAt, ReID.identA]

theorem updated_obs_ne_storedUnit :
    (ReID.identA.updateEmbedding (ReID.normalizePos ReID.obsEmb) (1/10) 5).embedding ≠
      ReID.storedUnit := by
  intro heq
  have hemb : ReID.normalizePos ((1 - 1/10 : ℝ) • ReID.storedUnit +
      (1/10 : ℝ) • ReID.normalizePos ReID.obsEmb) = ReID.storedUnit := heq
  have hw1 : ((1 - 1/10 : ℝ) • ReID.storedUnit +
      (1/10 : ℝ) • ReID.normalizePos ReID.obsEmb) 1 = 7/250 := by
    rw [normalizePos_obsEmb]
    simp [ReID.storedUnit, ReID.obsEmb]
    norm_num
  have hwne : ((1 - 1/10 : ℝ) • ReID.storedUnit +
      (1/10 : ℝ) • ReID.normalizePos ReID.obsEmb) ≠ (0 : ReID.Vec 2) := by
    intro h0
    have h1 := congrFun h0 1
    rw [hw1] at h1
    norm_num at h1
  have hpos : 0 < ReID.vnorm ((1 - 1/10 : ℝ) • ReID.storedUnit +
      (1/10 : ℝ) • ReID.normalizePos ReID.obsEmb) := (vnorm_pos _).mpr hwne
  rw [ReID.normalizePos, if_pos hpos] at hemb
  have h1 := congrFun hemb 1
  rw [Pi.smul_apply, hw1, smul_eq_mul] at h1
  have hsu : ReID.storedUnit 1 = 0 := by simp [ReID.storedUnit]
  rw [hsu] at h1
  rcases mul_eq_zero.mp h1 with h | h
  · exact inv_ne_zero (ne_of_gt hpos) h
  · norm_num at h

/-- C5, amended.  On a StrongMatch the matched identity's cached embedding
becomes the renormalized value of `(1 - 0.10) * v + 0.10 * v_new`, on a
WeakMatch the renormalized value of `(1 - 0.05) * v + 0.05 * v_new`, but the
update is applied to the in-memory identity cache only: the only database
write on the match path (`_update_goat_sighting`) leaves the biometric
registry unchanged, so the updated embedding is not persisted as part of the
match (only new-identity registrations write the registry). -/
theorem identify_match_cache_ema {n : ℕ} (st : ReID.EngineState n) (tid : ℕ)
    (emb : ReID.Vec n) (now : ℕ) :
    (ReID.strongMatchThreshold ≤
        (ReID.findBestMatch st.cache (ReID.aggEmbedding st tid emb)).2 →
      (ReID.identify st tid emb now).state.cache =
        ReID.updateCacheAt st.cache
          ((ReID.findBestMatch st.cache (ReID.aggEmbedding st tid emb)).1.getD 0)
          (ReID.aggEmbedding st tid emb) (1/10) now ∧
      (ReID.identify st tid emb now).decision = ReID.Decision.strongMatch) ∧
    (ReID.weakMatchThreshold ≤
        (ReID.findBestMatch st.cache (ReID.aggEmbedding st tid emb)).2 ∧
      (ReID.findBestMatch st.cache (ReID.aggEmbedding st tid emb)).2 <
        ReID.strongMatchThreshold →
      (ReID.identify st tid emb now).state.cache =
        ReID.updateCacheAt st.cache
          ((ReID.findBestMatch st.cache (ReID.aggEmbedding st tid emb)).1.getD 0)
          (ReID.aggEmbedding st tid emb) (1/20) now ∧
      (ReID.identify st tid emb now).decision = ReID.Decision.weakMatch) ∧
    (∀ (g : ReID.GoatIdentity n) (e : ReID.Vec n) (lr : ℝ) (t : ℕ),
      (g.updateEmbedding e lr t).embedding =
        ReID.normalizePos ((1 - lr) • g.embedding + lr • e)) ∧
    (∀ (db : ReID.BioDB n) (gid vid t : ℕ),
      (ReID.updateGoatSighting db gid vid t).biometricRegistry =
        db.biometricRegistry) := by
  have hlen : ¬ (ReID.pendingAfter st tid emb).length < 1 := by
    simp [ReID.pendingAfter]
  refine ⟨fun h => ?_, fun h => ?_, fun g e lr t => rfl, fun db gid vid t => rfl⟩
  · rw [ReID.identify]
    simp only [if_neg hlen]
    rw [if_pos h]
    exact ⟨rfl, rfl⟩
  · rw [ReID.identify]
    simp only [if_neg hlen]
    rw [if_neg (not_le.mpr h.2), if_pos h.1]
    exact ⟨rfl, rfl⟩

/-- C5, counterexample.  A concrete StrongMatch: the cached embedding of
identity 1 is EMA-updated away from the stored vector, yet the biometric
registry row — touched only by `_update_goat_sighting` on the match path —
still holds the old vector, so the updated embedding was not persisted. -/
theorem strongMatch_not_persisted_counterexample :
    (ReID.identify (⟨[ReID.identA], []⟩ : ReID.EngineState 2) 7 ReID.obsEmb 5).decision =
      ReID.Decision.strongMatch ∧
    (ReID.identify (⟨[ReID.identA], []⟩ : ReID.EngineState 2) 7 ReID.obsEmb 5).state.cache =
      [ReID.identA.updateEmbedding (ReID.normalizePos ReID.obsEmb) (1/10) 5] ∧
    (ReID.identA.updateEmbedding (ReID.normalizePos ReID.obsEmb) (1/10) 5).embedding ≠
      ReID.storedUnit ∧
    (ReID.updateGoatSighting (⟨[(1, ReID.storedUnit)], [(1, 3)], []⟩ : ReID.BioDB 2)
        1 9 5).biometricRegistry = [(1, ReID.storedUnit)] :=
  ⟨identify_obs_eval.1, identify_obs_eval.2, updated_obs_ne_storedUnit, rfl⟩

/-- Witness for C5's amended theorem on the concrete StrongMatch input. -/
theorem identify_match_cache_ema_witness :
    (ReID.identify (⟨[ReID.identA], []⟩ : ReID.EngineState 2) 7 ReID.obsEmb 5).state.cache =
      ReID.updateCacheAt (⟨[ReID.identA], []⟩ : ReID.EngineState 2).cache
        ((ReID.findBestMatch (⟨[ReID.identA], []⟩ : ReID.EngineState 2).cache
            (ReID.aggEmbedding (⟨[ReID.identA], []⟩ : ReID.EngineState 2) 7 ReID.obsEmb)).1.getD 0)
        (ReID.aggEmbedding (⟨[ReID.identA], []⟩ : ReID.EngineState 2) 7 ReID.obsEmb)
        (1/10) 5 ∧
    (ReID.identify (⟨[ReID.identA], []⟩ : ReID.EngineState 2) 7 ReID.obsEmb 5).decision =
      ReID.Decision.strongMatch :=
  (identify_match_cache_ema (⟨[ReID.identA], []⟩ : ReID.EngineState 2) 7 ReID.obsEmb 5).1
    (by
      rw [agg_obs_eval]
      show ReID.strongMatchThreshold ≤
        (ReID.findBestMatch [ReID.identA] (ReID.normalizePos ReID.obsEmb)).2
      rw [findBestMatch_obs_eval]
      norm_num [ReID.strongMatchThreshold])

theorem addNewTracks_minHits (s : Tracker.TrackerState) (l : List Tracker.TrkDetection) :
    (Tracker.addNewTracks s l).minHits = s.minHits := by
  induction l generalizing s with
  | nil => rfl
  | cons d ds ih =>
    rw [Tracker.addNewTracks, List.foldl_cons]
    exact ih _

theorem ageTracks_minHits (s : Tracker.TrackerState) :
    (Tracker.ageTracks s).minHits = s.minHits := rfl

theorem mem_getActiveTracks (s : Tracker.TrackerState) (t : Tracker.Track)
    (h : t ∈ Tracker.getActiveTracks s) :
    t ∈ s.tracks ∧ s.minHits ≤ t.detections.length := by
  rcases List.mem_filter.mp h with ⟨h1, h2⟩
  rcases Bool.and_eq_true_iff.mp h2 with ⟨_, h4⟩
  exact ⟨h1, of_decide_eq_true h4⟩

theorem updateTracker_snd (s : Tracker.TrackerState)
    (dets : List Tracker.TrkDetection) :
    (Tracker.updateTracker s dets).2 =
      Tracker.getActiveTracks (Tracker.updateTracker s dets).1 := by
  rw [Tracker.updateTracker]
  split
  · rfl
  · rfl

theorem updateTracker_fst_of_empty (s : Tracker.TrackerState)
    (dets : List Tracker.TrkDetection) (h : dets.isEmpty = true) :
    (Tracker.updateTracker s dets).1 =
      Tracker.ageTracks { s with frameCount := s.frameCount + 1 } := by
  rw [Tracker.updateTracker, if_pos h]

theorem updateTracker_fst_of_nonempty (s : Tracker.TrackerState)
    (dets : List Tracker.TrkDetection) (h : dets.isEmpty = false) :
    (Tracker.updateTracker s dets).1 =
      Tracker.ageTracks (Tracker.addNewTracks
        { s with frameCount := s.frameCount + 1,
                 tracks := Tracker.updateMatched s.tracks
                   (Tracker.associate s.tracks s.iouThreshold dets).1 }
        (Tracker.associate s.tracks s.iouThreshold dets).2) := by
  rw [Tracker.updateTracker, if_neg (by rw [h]; exact Bool.false_ne_true)]

theorem updateMatched_persists (matched : List (ℕ × Tracker.TrkDetection)) :
    ∀ (ts : List Tracker.Track) (t : Tracker.Track), t ∈ ts →
      ∃ t2 ∈ Tracker.updateMatched ts matched,
        t2.trackId = t.trackId ∧ t.detections.length ≤ t2.detections.length := by
  induction matched with
  | nil => exact fun ts t ht => ⟨t, ht, rfl, le_refl _⟩
  | cons p ps ih =>
    intro ts t ht
    rw [Tracker.updateMatched, List.foldl_cons]
    have hmem := List.mem_map_of_mem
      (fun u => if u.trackId = p.1 then u.updateDet p.2 else u) ht
    obtain ⟨t2, h2, hid, hlen⟩ := ih _ _ hmem
    have hid2 : ((fun u => if u.trackId = p.1 then u.updateDet p.2 else u) t).trackId =
        t.trackId := by
      by_cases hc : t.trackId = p.1 <;> simp [hc, Tracker.Track.updateDet]
    have hlen2 : t.detections.length ≤
        ((fun u => if u.trackId = p.1 then u.updateDet p.2 else u) t).detections.length := by
      by_cases hc : t.trackId = p.1 <;> simp [hc, Tracker.Track.updateDet]
    exact ⟨t2, h2, by rw [hid, hid2], le_trans hlen2 hlen⟩

theorem addNewTracks_persists (l : List Tracker.TrkDetection) :
    ∀ (s : Tracker.TrackerState) (t : Tracker.Track), t ∈ s.tracks →
      t ∈ (Tracker.addNewTracks s l).tracks := by
  induction l with
  | nil => exact fun s t ht => ht
  | cons d ds ih =>
    intro s t ht
    rw [Tracker.addNewTracks, List.foldl_cons]
    exact ih _ t (List.mem_append_left _ ht)

theorem ageTracks_persists (s : Tracker.TrackerState) (t : Tracker.Track)
    (ht : t ∈ s.tracks) :
    ∃ t2 ∈ (Tracker.ageTracks s).tracks,
      t2.trackId = t.trackId ∧ t.detections.length ≤ t2.detections.length := by
  refine ⟨if s.maxAge < s.frameCount - t.lastSeenFrame then
    { t with isActive := false } else t, List.mem_map_of_mem _ ht, ?_, ?_⟩
  · split
    · rfl
    · rfl
  · split
    · exact le_refl _
    · exact le_refl _

theorem updateTracker_minHits (s : Tracker.TrackerState)
    (dets : List Tracker.TrkDetection) :
    (Tracker.updateTracker s dets).1.minHits = s.minHits := by
  cases h : dets.isEmpty with
  | true => rw [updateTracker_fst_of_empty s dets h]; rfl
  | false =>
    rw [updateTracker_fst_of_nonempty s dets h, ageTracks_minHits,
      addNewTracks_minHits]

theorem updateTracker_persists (s : Tracker.TrackerState)
    (dets : List Tracker.TrkDetection) (t : Tracker.Track) (ht : t ∈ s.tracks) :
    ∃ t2 ∈ (Tracker.updateTracker s dets).1.tracks,
      t2.trackId = t.trackId ∧ t.detections.length ≤ t2.detections.length := by
  cases h : dets.isEmpty with
  | true =>
    rw [updateTracker_fst_of_empty s dets h]
    exact ageTracks_persists _ t ht
  | false =>
    rw [updateTracker_fst_of_nonempty s dets h]
    obtain ⟨t1, h1, hid1, hlen1⟩ :=
      updateMatched_persists (Tracker.associate s.tracks s.iouThreshold dets).1
        s.tracks t ht
    have h2 := addNewTracks_persists
      (Tracker.associate s.tracks s.iouThreshold dets).2
      { s with frameCount := s.frameCount + 1,
               tracks := Tracker.updateMatched s.tracks
                 (Tracker.associate s.tracks s.iouThreshold dets).1 } t1 h1
    obtain ⟨t2, h3, hid2, hlen2⟩ := ageTracks_persists _ t1 h2
    exact ⟨t2, h3, by rw [hid2, hid1], le_trans hlen1 hlen2⟩

theorem run_minHits (dss : List (List Tracker.TrkDetection))
    (s : Tracker.TrackerState) :
    (Tracker.run s dss).1.minHits = s.minHits := by
  induction dss generalizing s with
  | nil => rfl
  | cons ds rest ih =>
    show (Tracker.run (Tracker.updateTracker s ds).1 rest).1.minHits = s.minHits
    rw [ih _, updateTracker_minHits]

theorem run_persists (dss : List (List Tracker.TrkDetection)) :
    ∀ (s : Tracker.TrackerState) (t : Tracker.Track), t ∈ s.tracks →
      ∃ t2 ∈ (Tracker.run s dss).1.tracks,
        t2.trackId = t.trackId ∧ t.detections.length ≤ t2.detections.length := by
  induction dss with
  | nil => exact fun s t ht => ⟨t, ht, rfl, le_refl _⟩
  | cons ds rest ih =>
    intro s t ht
    obtain ⟨t1, h1, hid1, hlen1⟩ := updateTracker_persists s ds t ht
    obtain ⟨t2, h2, hid2, hlen2⟩ := ih _ t1 h1
    exact ⟨t2, h2, by rw [hid2, hid1], le_trans hlen1 hlen2⟩

/-- C7.  Every track returned by `SimpleTracker.update` has accumulated at
least `min_hits` detections; consequently, in a job where every track only
ever receives a single detection (no detection ever matches an existing
track), `update` never returns any track, so no re-id decision is taken for
any of them. -/
theorem tracker_confirmed_only :
    (∀ (s : Tracker.TrackerState) (dets : List Tracker.TrkDetection)
        (t : Tracker.Track),
      t ∈ (Tracker.updateTracker s dets).2 → s.minHits ≤ t.detections.length) ∧
    (∀ (s0 : Tracker.TrackerState) (dss : List (List Tracker.TrkDetection)),
      1 < s0.minHits →
      (∀ t ∈ (Tracker.run s0 dss).1.tracks, t.detections.length = 1) →
      ∀ out ∈ (Tracker.run s0 dss).2, out = []) := by
  have part1 : ∀ (s : Tracker.TrackerState) (dets : List Tracker.TrkDetection)
      (t : Tracker.Track),
      t ∈ (Tracker.updateTracker s dets).2 → s.minHits ≤ t.detections.length := by
    intro s dets t ht
    rw [updateTracker_snd] at ht
    have h := (mem_getActiveTracks _ _ ht).2
    rwa [updateTracker_minHits] at h
  refine ⟨part1, ?_⟩
  intro s0 dss
  induction dss generalizing s0 with
  | nil =>
    intro _ _ out hout
    simp [Tracker.run] at hout
  | cons ds rest ih =>
    intro hmin hfin out hout
    have hdec2 : (Tracker.run s0 (ds :: rest)).2 =
        (Tracker.updateTracker s0 ds).2 ::
          (Tracker.run (Tracker.updateTracker s0 ds).1 rest).2 := rfl
    have hdec1 : (Tracker.run s0 (ds :: rest)).1 =
        (Tracker.run (Tracker.updateTracker s0 ds).1 rest).1 := rfl
    rw [hdec2] at hout
    rcases List.mem_cons.mp hout with rfl | hout2
    · rw [List.eq_nil_iff_forall_not_mem]
      intro t ht
      have hlen := part1 s0 ds t ht
      have htr : t ∈ (Tracker.updateTracker s0 ds).1.tracks := by
        rw [updateTracker_snd] at ht
        exact (mem_getActiveTracks _ _ ht).1
      obtain ⟨t2, h2, _, hle⟩ := run_persists rest _ t htr
      have h1 : t2.detections.length = 1 := by
        apply hfin
        rw [hdec1]
        exact h2
      have hcon : s0.minHits ≤ 1 := le_trans hlen (h1 ▸ hle)
      exact absurd (lt_of_lt_of_le hmin hcon) (lt_irrefl _)
    · refine ih _ ?_ ?_ out hout2
      · rwa [updateTracker_minHits]
      · intro t ht
        apply hfin
        rw [hdec1]
        exact ht

/-- Witness for C7: processor defaults (`max_age=60, min_hits=3,
iou_threshold=0.3`), a single frame with a single detection.  The final
state holds one track with one detection, and the returned track lists are
all empty. -/
theorem tracker_confirmed_only_witness :
    (Tracker.run (Tracker.initTracker 60 3 (3/10))
      [[⟨(0, 0, 10, 10), 1, 0, 1, 0⟩]]).2 = [[]] := by
  have h := tracker_confirmed_only.2 (Tracker.initTracker 60 3 (3/10))
    [[⟨(0, 0, 10, 10), 1, 0, 1, 0⟩]] (by decide) (by decide)
  have hdec : (Tracker.run (Tracker.initTracker 60 3 (3/10))
      [[⟨(0, 0, 10, 10), 1, 0, 1, 0⟩]]).2 =
    [(Tracker.updateTracker (Tracker.initTracker 60 3 (3/10))
      [⟨(0, 0, 10, 10), 1, 0, 1, 0⟩]).2] := rfl
  rw [hdec]
  exact congrArg (fun x => [x]) (h _ (by rw [hdec]; exact List.mem_singleton_self _))

theorem foldl_max_init_le (l : List ℕ) : ∀ a, a ≤ l.foldl max a := by
  induction l with
  | nil => exact fun a => le_refl a
  | cons x xs ih =>
    intro a
    rw [List.foldl_cons]
    exact le_trans (le_max_left a x) (ih _)

theorem mem_le_foldl_max (l : List ℕ) : ∀ (a : ℕ), ∀ c ∈ l, c ≤ l.foldl max a := by
  induction l with
  | nil => intro a c hc; simp at hc
  | cons x xs ih =>
    intro a c hc
    rw [List.foldl_cons]
    rcases List.mem_cons.mp hc with rfl | hc
    · exact le_trans (le_max_right a c) (foldl_max_init_le xs _)
    · exact ih _ c hc

theorem le_peak_of_mem (counts : List ℕ) (c : ℕ) (hc : c ∈ counts) :
    c ≤ Verifier.peak counts := mem_le_foldl_max counts 0 c hc

theorem sortedCounts_pairwise (counts : List ℕ) :
    (Verifier.sortedCounts counts).Pairwise (· ≤ ·) := by
  have h := @pairwise_stableSort ℕ (fun a b => decide (a ≤ b))
    (fun a b => by
      rcases Nat.le_total a b with h | h
      · exact Or.inl (decide_eq_true h)
      · exact Or.inr (decide_eq_true h))
    (fun a b c hab hbc =>
      decide_eq_true (le_trans (of_decide_eq_true hab) (of_decide_eq_true hbc)))
    counts
  exact h.imp of_decide_eq_true

theorem sortedCounts_length (counts : List ℕ) :
    (Verifier.sortedCounts counts).length = counts.length :=
  (stableSort_perm counts).length_eq

theorem getD_le_peak (counts : List ℕ) (j : ℕ) :
    (Verifier.sortedCounts counts).getD j 0 ≤ Verifier.peak counts := by
  by_cases hj : j < (Verifier.sortedCounts counts).length
  · rw [List.getD_eq_getElem?_getD, List.getElem?_eq_getElem hj]
    exact le_peak_of_mem counts _
      ((mem_stableSort counts _).mp (List.getElem_mem hj))
  · rw [List.getD_eq_default _ _ (not_lt.mp hj)]
    exact Nat.zero_le _

theorem sorted_getD_mono (counts : List ℕ) (j k : ℕ) (hjk : j ≤ k)
    (hk : k < (Verifier.sortedCounts counts).length) :
    (Verifier.sortedCounts counts).getD j 0 ≤ (Verifier.sortedCounts counts).getD k 0 := by
  have hj : j < (Verifier.sortedCounts counts).length := lt_of_le_of_lt hjk hk
  rw [List.getD_eq_getElem?_getD, List.getElem?_eq_getElem hj,
    List.getD_eq_getElem?_getD, List.getElem?_eq_getElem hk]
  rcases lt_or_eq_of_le hjk with hlt | rfl
  · exact List.pairwise_iff_get.mp (sortedCounts_pairwise counts) ⟨j, hj⟩ ⟨k, hk⟩ hlt
  · simp

theorem pyInt_of_nonneg {x : ℚ} (h : 0 ≤ x) : Verifier.pyInt x = ⌊x⌋ := if_pos h

theorem pyInt_nonneg {x : ℚ} (h : 0 ≤ x) : 0 ≤ Verifier.pyInt x := by
  rw [pyInt_of_nonneg h]
  exact Int.floor_nonneg.mpr h

theorem pyInt_le_int {x : ℚ} {m : ℤ} (h0 : 0 ≤ x) (h : x ≤ (m : ℚ)) :
    Verifier.pyInt x ≤ m := by
  rw [pyInt_of_nonneg h0]
  calc ⌊x⌋ ≤ ⌊(m : ℚ)⌋ := Int.floor_mono h
    _ = m := Int.floor_intCast m

theorem int_le_pyInt {m : ℤ} {x : ℚ} (hm : 0 ≤ m) (h : (m : ℚ) ≤ x) :
    m ≤ Verifier.pyInt x := by
  rw [pyInt_of_nonneg (le_trans (by exact_mod_cast hm) h)]
  calc m = ⌊(m : ℚ)⌋ := (Int.floor_intCast m).symm
    _ ≤ ⌊x⌋ := Int.floor_mono h

theorem pyInt_mono_of_nonneg {x y : ℚ} (h0 : 0 ≤ x) (hxy : x ≤ y) :
    Verifier.pyInt x ≤ Verifier.pyInt y := by
  rw [pyInt_of_nonneg h0, pyInt_of_nonneg (le_trans h0 hxy)]
  exact Int.floor_mono hxy

theorem floor_toNat_cast {pos : ℚ} (hpos : 0 ≤ pos) :
    (((⌊pos⌋).toNat : ℕ) : ℚ) = (⌊pos⌋ : ℚ) := by
  have h := Int.toNat_of_nonneg (Int.floor_nonneg.mpr hpos)
  exact_mod_cast congrArg (fun z : ℤ => (z : ℚ)) h

theorem interp_frac {pos : ℚ} (hpos : 0 ≤ pos) :
    0 ≤ pos - (((⌊pos⌋).toNat : ℕ) : ℚ) ∧ pos - (((⌊pos⌋).toNat : ℕ) : ℚ) < 1 := by
  rw [floor_toNat_cast hpos]
  constructor
  · linarith [Int.floor_le pos]
  · linarith [Int.lt_floor_add_one pos]

theorem interpAt_nonneg (s : List ℕ) (pos : ℚ) (hpos : 0 ≤ pos) :
    0 ≤ Verifier.interpAt s pos := by
  obtain ⟨hf0, hf1⟩ := interp_frac hpos
  simp only [Verifier.interpAt]
  nlinarith [Nat.cast_nonneg (α := ℚ) (s.getD (⌊pos⌋).toNat 0),
    Nat.cast_nonneg (α := ℚ) (s.getD (min ((⌊pos⌋).toNat + 1) (s.length - 1)) 0)]

theorem interpAt_le (s : List ℕ) (pos : ℚ) (hpos : 0 ≤ pos) (P : ℚ)
    (hP : ∀ j, ((s.getD j 0 : ℕ) : ℚ) ≤ P) :
    Verifier.interpAt s pos ≤ P := by
  obtain ⟨hf0, hf1⟩ := interp_frac hpos
  simp only [Verifier.interpAt]
  nlinarith [hP (⌊pos⌋).toNat, hP (min ((⌊pos⌋).toNat + 1) (s.length - 1)),
    Nat.cast_nonneg (α := ℚ) (s.getD (⌊pos⌋).toNat 0),
    Nat.cast_nonneg (α := ℚ) (s.getD (min ((⌊pos⌋).toNat + 1) (s.length - 1)) 0)]

theorem interp_hi_ge_lo (counts : List ℕ)
    (hn : (Verifier.sortedCounts counts).length ≠ 0) (i : ℕ) :
    (Verifier.sortedCounts counts).getD i 0 ≤
      (Verifier.sortedCounts counts).getD
        (min (i + 1) ((Verifier.sortedCounts counts).length - 1)) 0 := by
  by_cases hi : i < (Verifier.sortedCounts counts).length
  · refine sorted_getD_mono counts _ _ (le_min (Nat.le_succ i) (Nat.le_pred_of_lt hi)) ?_
    exact lt_of_le_of_lt (min_le_right _ _) (Nat.pred_lt hn)
  · rw [List.getD_eq_default _ _ (not_lt.mp hi)]
    exact Nat.zero_le _

theorem interpAt_mono (counts : List ℕ)
    (hn : (Verifier.sortedCounts counts).length ≠ 0)
    (pos pos2 : ℚ) (h0 : 0 ≤ pos) (h12 : pos ≤ pos2)
    (hub : pos2 ≤ ((Verifier.sortedCounts counts).length : ℚ) - 1) :
    Verifier.interpAt (Verifier.sortedCounts counts) pos ≤
      Verifier.interpAt (Verifier.sortedCounts counts) pos2 := by
  have h02 : 0 ≤ pos2 := le_trans h0 h12
  obtain ⟨hf0, hf1⟩ := interp_frac h0
  obtain ⟨hg0, hg1⟩ := interp_frac h02
  have hii : (⌊pos⌋).toNat ≤ (⌊pos2⌋).toNat :=
    Int.toNat_le_toNat (Int.floor_mono h12)
  have hnpos : 0 < (Verifier.sortedCounts counts).length := Nat.pos_of_ne_zero hn
  have hcast : (((Verifier.sortedCounts counts).length : ℚ)) - 1 =
      (((Verifier.sortedCounts counts).length - 1 : ℕ) : ℚ) := by
    rw [Nat.cast_sub hnpos]
    norm_num
  have hi2n : (⌊pos2⌋).toNat ≤ (Verifier.sortedCounts counts).length - 1 := by
    have h1 : ⌊pos2⌋ ≤ (((Verifier.sortedCounts counts).length - 1 : ℕ) : ℤ) := by
      rw [hcast] at hub
      calc ⌊pos2⌋ ≤ ⌊(((Verifier.sortedCounts counts).length - 1 : ℕ) : ℚ)⌋ :=
          Int.floor_mono hub
        _ = _ := Int.floor_natCast _
    calc (⌊pos2⌋).toNat ≤ ((((Verifier.sortedCounts counts).length - 1 : ℕ) : ℤ)).toNat :=
        Int.toNat_le_toNat h1
      _ = _ := Int.toNat_natCast _
  rcases lt_or_eq_of_le hii with hlt | heq
  · have hA : Verifier.interpAt (Verifier.sortedCounts counts) pos ≤
        (((Verifier.sortedCounts counts).getD
          (min ((⌊pos⌋).toNat + 1) ((Verifier.sortedCounts counts).length - 1)) 0 : ℕ) : ℚ) := by
      have hge : (((Verifier.sortedCounts counts).getD (⌊pos⌋).toNat 0 : ℕ) : ℚ) ≤
          (((Verifier.sortedCounts counts).getD
            (min ((⌊pos⌋).toNat + 1) ((Verifier.sortedCounts counts).length - 1)) 0 : ℕ) : ℚ) := by
        exact_mod_cast interp_hi_ge_lo counts hn (⌊pos⌋).toNat
      simp only [Verifier.interpAt]
      nlinarith
    have hB : (((Verifier.sortedCounts counts).getD (⌊pos2⌋).toNat 0 : ℕ) : ℚ) ≤
        Verifier.interpAt (Verifier.sortedCounts counts) pos2 := by
      have hge : (((Verifier.sortedCounts counts).getD (⌊pos2⌋).toNat 0 : ℕ) : ℚ) ≤
          (((Verifier.sortedCounts counts).getD
            (min ((⌊pos2⌋).toNat + 1) ((Verifier.sortedCounts counts).length - 1)) 0 : ℕ) : ℚ) := by
        exact_mod_cast interp_hi_ge_lo counts hn (⌊pos2⌋).toNat
      simp only [Verifier.interpAt]
      nlinarith
    have hC : ((Verifier.sortedCounts counts).getD
        (min ((⌊pos⌋).toNat + 1) ((Verifier.sortedCounts counts).length - 1)) 0 : ℕ) ≤
        ((Verifier.sortedCounts counts).getD (⌊pos2⌋).toNat 0 : ℕ) := by
      refine sorted_getD_mono counts _ _
        (le_trans (min_le_left _ _) hlt) ?_
      exact lt_of_le_of_lt hi2n (Nat.pred_lt hn)
    calc Verifier.interpAt (Verifier.sortedCounts counts) pos ≤ _ := hA
      _ ≤ _ := by exact_mod_cast hC
      _ ≤ _ := hB
  · have hge : (((Verifier.sortedCounts counts).getD (⌊pos⌋).toNat 0 : ℕ) : ℚ) ≤
        (((Verifier.sortedCounts counts).getD
          (min ((⌊pos⌋).toNat + 1) ((Verifier.sortedCounts counts).length - 1)) 0 : ℕ) : ℚ) := by
      exact_mod_cast interp_hi_ge_lo counts hn (⌊pos⌋).toNat
    simp only [Verifier.interpAt]
    rw [← heq]
    nlinarith

theorem percentile_nonneg (counts : List ℕ) (q : ℚ) (h0 : 0 ≤ q) :
    0 ≤ Verifier.percentile counts q := by
  rw [Verifier.percentile]
  split
  · exact le_refl 0
  · rename_i hlen
    refine interpAt_nonneg _ _ ?_
    have h1 : (1 : ℚ) ≤ ((Verifier.sortedCounts counts).length : ℚ) := by
      exact_mod_cast Nat.one_le_iff_ne_zero.mpr hlen
    have h2 : 0 ≤ ((Verifier.sortedCounts counts).length : ℚ) - 1 := by linarith
    positivity

theorem percentile_le_peak (counts : List ℕ) (q : ℚ) (h0 : 0 ≤ q) :
    Verifier.percentile counts q ≤ (Verifier.peak counts : ℚ) := by
  rw [Verifier.percentile]
  split
  · exact_mod_cast Nat.zero_le _
  · rename_i hlen
    have h1 : (1 : ℚ) ≤ ((Verifier.sortedCounts counts).length : ℚ) := by
      exact_mod_cast Nat.one_le_iff_ne_zero.mpr hlen
    have h2 : 0 ≤ ((Verifier.sortedCounts counts).length : ℚ) - 1 := by linarith
    refine interpAt_le _ _ (by positivity) _ ?_
    intro j
    exact_mod_cast getD_le_peak counts j

theorem percentile_mono (counts : List ℕ) (q q2 : ℚ) (h0 : 0 ≤ q)
    (h12 : q ≤ q2) (h100 : q2 ≤ 100) :
    Verifier.percentile counts q ≤ Verifier.percentile counts q2 := by
  rw [Verifier.percentile, Verifier.percentile]
  split
  · exact le_refl 0
  · rename_i hlen
    have h1 : (1 : ℚ) ≤ ((Verifier.sortedCounts counts).length : ℚ) := by
      exact_mod_cast Nat.one_le_iff_ne_zero.mpr hlen
    have h2 : 0 ≤ ((Verifier.sortedCounts counts).length : ℚ) - 1 := by linarith
    refine interpAt_mono counts hlen _ _ (by positivity) ?_ ?_
    · have := mul_le_mul_of_nonneg_right h12 h2
      linarith
    · have := mul_le_mul_of_nonneg_right h100 h2
      linarith

theorem minCount_le_likelyCount (counts : List ℕ) :
    Verifier.minCount counts ≤ Verifier.likelyCount counts := by
  rw [Verifier.minCount, Verifier.likelyCount]
  by_cases h1 : Verifier.cv counts < 5/100
  · rw [if_pos h1, if_pos h1]
    have hL : 0 ≤ Verifier.pyInt (Verifier.percentile counts 95) :=
      pyInt_nonneg (percentile_nonneg counts 95 (by norm_num))
    have hLq : (0 : ℚ) ≤ (Verifier.pyInt (Verifier.percentile counts 95) : ℚ) := by
      exact_mod_cast hL
    refine pyInt_le_int (by positivity) ?_
    nlinarith
  · rw [if_neg h1, if_neg h1]
    by_cases h2 : Verifier.cv counts < 15/100
    · rw [if_pos h2, if_pos h2]
      have hL : 0 ≤ Verifier.pyInt (Verifier.percentile counts 90) :=
        pyInt_nonneg (percentile_nonneg counts 90 (by norm_num))
      have hLq : (0 : ℚ) ≤ (Verifier.pyInt (Verifier.percentile counts 90) : ℚ) := by
        exact_mod_cast hL
      refine pyInt_le_int (by positivity) ?_
      nlinarith
    · rw [if_neg h2, if_neg h2]
      exact pyInt_mono_of_nonneg (percentile_nonneg counts 25 (by norm_num))
        (percentile_mono counts 25 50 (by norm_num) (by norm_num) (by norm_num))

theorem likelyCount_le_maxCount (counts : List ℕ) :
    Verifier.likelyCount counts ≤ Verifier.maxCount counts := by
  rw [Verifier.likelyCount, Verifier.maxCount]
  by_cases h1 : Verifier.cv counts < 5/100
  · rw [if_pos h1, if_pos h1]
    have hL : 0 ≤ Verifier.pyInt (Verifier.percentile counts 95) :=
      pyInt_nonneg (percentile_nonneg counts 95 (by norm_num))
    have hLq : (0 : ℚ) ≤ (Verifier.pyInt (Verifier.percentile counts 95) : ℚ) := by
      exact_mod_cast hL
    refine int_le_pyInt hL ?_
    nlinarith
  · rw [if_neg h1, if_neg h1]
    by_cases h2 : Verifier.cv counts < 15/100
    · rw [if_pos h2, if_pos h2]
      have hpk : (0 : ℚ) ≤ ((Verifier.peak counts : ℕ) : ℚ) := Nat.cast_nonneg _
      have ha : Verifier.pyInt (Verifier.percentile counts 90) ≤ (Verifier.peak counts : ℤ) := by
        refine pyInt_le_int (percentile_nonneg counts 90 (by norm_num)) ?_
        have := percentile_le_peak counts 90 (by norm_num)
        exact_mod_cast this
      have hb : (Verifier.peak counts : ℤ) ≤
          Verifier.pyInt (((Verifier.peak counts : ℕ) : ℚ) * (105/100)) := by
        refine int_le_pyInt (by exact_mod_cast Nat.zero_le _) ?_
        push_cast
        nlinarith
      exact le_trans ha hb
    · rw [if_neg h2, if_neg h2]
      refine pyInt_le_int (percentile_nonneg counts 50 (by norm_num)) ?_
      have := percentile_le_peak counts 50 (by norm_num)
      exact_mod_cast this

theorem confidence_bounds (counts : List ℕ) (us : List ℚ) :
    0 ≤ Verifier.confidence counts us ∧ Verifier.confidence counts us ≤ 100 := by
  rw [Verifier.confidence]
  exact ⟨le_min (by norm_num) (le_max_left 0 _), min_le_left 100 _⟩

theorem roundTo1_bounds {x : ℝ} (h0 : 0 ≤ x) (h1 : x ≤ 100) :
    0 ≤ Verifier.roundTo1 x ∧ Verifier.roundTo1 x ≤ 100 := by
  have hl : (0 : ℤ) ≤ round (x * 10) := by
    have h := Int.floor_mono (show (0 : ℝ) + 1/2 ≤ x * 10 + 1/2 by linarith)
    rw [← round_eq, ← round_eq, round_zero] at h
    exact h
  have hu : round (x * 10) ≤ 1000 := by
    have h := Int.floor_mono (show x * 10 + 1/2 ≤ ((1000 : ℤ) : ℝ) + 1/2 by push_cast; linarith)
    rw [← round_eq, ← round_eq, round_intCast] at h
    exact h
  rw [Verifier.roundTo1]
  constructor
  · have : (0 : ℝ) ≤ ((round (x * 10) : ℤ) : ℝ) := by exact_mod_cast hl
    linarith
  · have : ((round (x * 10) : ℤ) : ℝ) ≤ 1000 := by exact_mod_cast hu
    linarith

theorem verifyCounts_of_nonempty (counts : List ℕ) (us : List ℚ)
    (h : counts.isEmpty = false) :
    Verifier.verifyCounts counts us =
      ⟨Verifier.minCount counts, Verifier.maxCount counts, Verifier.likelyCount counts,
       Verifier.roundTo1 (Verifier.confidence counts us),
       Verifier.uncertaintyLevel counts us,
       Verifier.minConfidenceThreshold ≤ Verifier.confidence counts us,
       Verifier.warningsOf counts,
       Verifier.failureReasonsOf counts us,
       Verifier.roundTo1 ((Verifier.temporalStability counts : ℚ) : ℝ),
       ¬ Verifier.minConfidenceThreshold ≤ Verifier.confidence counts us⟩ := by
  rw [Verifier.verifyCounts, h]
  simp

/-- C1.  For every non-empty map of per-frame counts with per-frame
uncertainties in [0, 100], the result of `CountVerifier.verify_counts`
satisfies `min_count ≤ likely_count ≤ max_count` and its rounded
`confidence_score` lies in [0, 100]; the failure result returned on empty
input satisfies the same bounds. -/
theorem verifier_result_bounds (counts : List ℕ) (us : List ℚ)
    (reason : Verifier.VNote) (hne : counts ≠ [])
    (hlen : us.length = counts.length)
    (hu : ∀ u ∈ us, 0 ≤ u ∧ u ≤ 100) :
    ((Verifier.verifyCounts counts us).minCount ≤
        (Verifier.verifyCounts counts us).likelyCount ∧
      (Verifier.verifyCounts counts us).likelyCount ≤
        (Verifier.verifyCounts counts us).maxCount ∧
      0 ≤ (Verifier.verifyCounts counts us).confidenceScore ∧
      (Verifier.verifyCounts counts us).confidenceScore ≤ 100) ∧
    ((Verifier.createFailureResult reason).minCount ≤
        (Verifier.createFailureResult reason).likelyCount ∧
      (Verifier.createFailureResult reason).likelyCount ≤
        (Verifier.createFailureResult reason).maxCount ∧
      0 ≤ (Verifier.createFailureResult reason).confidenceScore ∧
      (Verifier.createFailureResult reason).confidenceScore ≤ 100) := by
  have hie : counts.isEmpty = false := by
    cases counts with
    | nil => exact absurd rfl hne
    | cons a l => rfl
  rw [verifyCounts_of_nonempty counts us hie]
  obtain ⟨hc0, hc1⟩ := confidence_bounds counts us
  obtain ⟨hr0, hr1⟩ := roundTo1_bounds hc0 hc1
  refine ⟨⟨minCount_le_likelyCount counts, likelyCount_le_maxCount counts, hr0, hr1⟩,
    ?_, ?_, ?_, ?_⟩
  · exact le_refl 0
  · exact le_refl 0
  · exact le_refl 0
  · norm_num [Verifier.createFailureResult]

/-- Witness for C1 at the concrete map with counts 1, 2, 3 and uncertainties
10, 20, 30. -/
theorem verifier_result_bounds_witness :
    ((Verifier.verifyCounts [1, 2, 3] [10, 20, 30]).minCount ≤
        (Verifier.verifyCounts [1, 2, 3] [10, 20, 30]).likelyCount ∧
      (Verifier.verifyCounts [1, 2, 3] [10, 20, 30]).likelyCount ≤
        (Verifier.verifyCounts [1, 2, 3] [10, 20, 30]).maxCount ∧
      0 ≤ (Verifier.verifyCounts [1, 2, 3] [10, 20, 30]).confidenceScore ∧
      (Verifier.verifyCounts [1, 2, 3] [10, 20, 30]).confidenceScore ≤ 100) ∧
    ((Verifier.createFailureResult .noDetections).minCount ≤
        (Verifier.createFailureResult .noDetections).likelyCount ∧
      (Verifier.createFailureResult .noDetections).likelyCount ≤
        (Verifier.createFailureResult .noDetections).maxCount ∧
      0 ≤ (Verifier.createFailureResult .noDetections).confidenceScore ∧
      (Verifier.createFailureResult .noDetections).confidenceScore ≤ 100) :=
  verifier_result_bounds [1, 2, 3] [10, 20, 30] .noDetections (by decide) rfl
    (by intro u hu; fin_cases hu <;> norm_num)
